import Mathlib

/-!
Verification of the tool-calling orchestration subsystem of the repository
(`app/services/user_chat_mcp_service.py`, `app/services/mcp_client.py`,
`app/llm_client.py`, the MCP-server registry of `app/services/cabinet_service.py`).

Strings are modelled as `List Char` (`Str`).  Network calls, database reads and
the completion backend are modelled as oracles passed in explicitly; a Python
exception is an `Except.error`.  Python `uuid.UUID` values are modelled by their
integer value (`UUIDv`); canonical rendering `str(uuid)` and string parsing
`UUID(s)` are embedded below.
-/

abbrev Str := List Char

/-- Python `s.rstrip('/')`: drop trailing `'/'` characters. -/
def rstripSlash (s : Str) : Str :=
  (s.reverse.dropWhile (fun c => c = '/')).reverse

/-- Python whitespace class used by `str.strip()` (ASCII part; non-ASCII
Unicode whitespace is outside the modelled alphabet). -/
def isPySpace (c : Char) : Bool :=
  c = ' ' || c = '\t' || c = '\n' || c = '\r' || c = '\x0b' || c = '\x0c'

/-- Python `s.strip()`. -/
def stripWs (s : Str) : Str :=
  ((s.dropWhile isPySpace).reverse.dropWhile isPySpace).reverse

/-- Python `lst[-n:]`: the last `n` elements (all of them when shorter). -/
def takeLast (n : Nat) (l : List α) : List α :=
  l.drop (l.length - n)

/-- Drop a literal from the front of a list if it is there (helper for the
embedded regular-expression matcher). -/
def stripPre? : Str → Str → Option Str
  | [], s => some s
  | _ :: _, [] => none
  | p :: ps, c :: cs => if p = c then stripPre? ps cs else none

/-- Substring occurrence test (Python `sub in s` for a nonempty literal). -/
def containsSub (p : Str) : Str → Bool
  | [] => p.isEmpty
  | c :: cs => p.isPrefixOf (c :: cs) || containsSub p cs

/-- Python `name.split("__", 1)`: split at the first occurrence of `"__"`;
`none` when `"__"` does not occur (the source only splits under its
`"__" in name` guard). -/
def split_dunder : Str → Option (Str × Str)
  | [] => none
  | [_] => none
  | c :: d :: rest =>
    if c = '_' ∧ d = '_' then some ([], rest)
    else (split_dunder (d :: rest)).map (fun pr => (c :: pr.1, pr.2))

/-- Python `prefix.replace("mcp_", "")`: remove every occurrence of `"mcp_"`,
scanning left to right. -/
def replace_mcp (s : Str) : Str :=
  match s with
  | [] => []
  | c :: cs =>
    if ("mcp_".toList).isPrefixOf (c :: cs) then replace_mcp (cs.drop 3)
    else c :: replace_mcp cs
termination_by s.length
decreasing_by
  · simp [List.length_drop]; omega
  · simp

/-- Python `s.replace('urn:', '')` (first step of `uuid.UUID` parsing). -/
def replace_urn (s : Str) : Str :=
  match s with
  | [] => []
  | c :: cs =>
    if ("urn:".toList).isPrefixOf (c :: cs) then replace_urn (cs.drop 3)
    else c :: replace_urn cs
termination_by s.length
decreasing_by
  · simp [List.length_drop]; omega
  · simp

/-- Python `s.replace('uuid:', '')` (second step of `uuid.UUID` parsing). -/
def replace_uuidc (s : Str) : Str :=
  match s with
  | [] => []
  | c :: cs =>
    if ("uuid:".toList).isPrefixOf (c :: cs) then replace_uuidc (cs.drop 4)
    else c :: replace_uuidc cs
termination_by s.length
decreasing_by
  · simp [List.length_drop]; omega
  · simp

def isBrace (c : Char) : Bool := c = '\x7b' || c = '\x7d'

/-- Python `s.strip('{}')`. -/
def stripBraces (s : Str) : Str :=
  ((s.dropWhile isBrace).reverse.dropWhile isBrace).reverse

def isHexDig (c : Char) : Bool :=
  (('0' ≤ c) && (c ≤ '9')) || (('a' ≤ c) && (c ≤ 'f')) || (('A' ≤ c) && (c ≤ 'F'))

def hexVal (c : Char) : Nat :=
  if ('0' ≤ c) && (c ≤ '9') then c.toNat - 48
  else if ('a' ≤ c) && (c ≤ 'f') then c.toNat - 87
  else c.toNat - 55

/-- Python `int(s, 16)` on an all-hex-digit string. -/
def hexToNat (s : Str) : Nat :=
  s.foldl (fun acc c => 16 * acc + hexVal c) 0

/-- A Python `uuid.UUID` value, modelled by its 128-bit integer value.
Genuine UUIDs satisfy `val < 2^128`; theorems that need canonical rendering
carry that bound as a hypothesis. -/
structure UUIDv where
  val : Nat
deriving DecidableEq

/-- Lower-case hex digit of `n < 16` (`'0'..'9'`, `'a'..'f'`). -/
def hexDigitOf (n : Nat) : Char :=
  if n < 10 then Char.ofNat (48 + n) else Char.ofNat (87 + n)

/-- Little-endian base-16 digits, fixed width. -/
def toHexRev : Nat → Nat → List Nat
  | 0, _ => []
  | k + 1, n => n % 16 :: toHexRev k (n / 16)

/-- The 32 hex characters of a UUID's integer value, most significant first. -/
def hexChars32 (n : Nat) : Str :=
  ((toHexRev 32 n).reverse).map hexDigitOf

/-- Canonical 8-4-4-4-12 dash layout. -/
def insertDashes (s : Str) : Str :=
  s.take 8 ++ '-' :: ((s.drop 8).take 4) ++ '-' :: ((s.drop 12).take 4)
    ++ '-' :: ((s.drop 16).take 4) ++ '-' :: (s.drop 20)

/-- Python `str(uuid)`: canonical lower-case hex with dashes. -/
def uuidStr (u : UUIDv) : Str :=
  insertDashes (hexChars32 u.val)

/-- Python `uuid.UUID(s)` as used by `_call_tool`: strip `urn:` / `uuid:`
prefixes and braces, remove dashes, then require exactly 32 hex digits
(`int(_, 16)` tolerances for underscores/whitespace are outside the modelled
alphabet of identifiers). `none` models the `ValueError`. -/
def pyParseHex (t : Str) : Option UUIDv :=
  if t.length = 32 ∧ t.all isHexDig then some ⟨hexToNat t⟩ else none

def pyParseUUID (s : Str) : Option UUIDv :=
  pyParseHex ((stripBraces (replace_uuidc (replace_urn s))).filter (fun c => c ≠ '-'))

/-- Characters that can occur in a canonical UUID rendering. -/
def isUUIDChar (c : Char) : Bool :=
  (('0' ≤ c) && (c ≤ '9')) || (('a' ≤ c) && (c ≤ 'f')) || c = '-'

/-- Value of a big-endian base-16 digit list. -/
def digitsBE (ds : List Nat) : Nat :=
  ds.foldl (fun a d => 16 * a + d) 0

-- ---------------------------------------------------------------------------
-- Data model (app/services/mcp_client.py)
-- ---------------------------------------------------------------------------

/-- JSON-schema-like object of a tool, as far as the code inspects it: the
`type` tag, the `properties` mapping (keys plus opaque sub-schemas, modelled
as strings) and the `required` list.  `none` = key absent in the JSON dict.
Keys other than these three are never read by the code. -/
structure InputSchema where
  type : Option Str
  properties : Option (List (Str × Str))
  required : Option (List Str)
deriving DecidableEq

/-- A raw MCP tool object from a `tools/list` response. -/
structure RawTool where
  name : Option Str
  description : Option Str
  inputSchema : Option InputSchema
deriving DecidableEq

/-- The `{"name": .., "description": .., "parameters": ..}`. -/
structure ToolFunction where
  name : Str
  description : Str
  parameters : InputSchema
deriving DecidableEq

/-- A DeepSeek/OpenAI-style tool descriptor `{"type": "function", "function": ..}`. -/
structure ToolForLLM where
  type : Str
  function : ToolFunction
deriving DecidableEq

/-- A JSON object of tool-call arguments: keys mapped to opaque serialized
JSON values. -/
abbrev Args := List (Str × Str)

/-- One entry of a `tools/call` result `content` array. -/
structure ContentPart where
  type : Option Str
  text : Option Str
deriving DecidableEq

/-- The JSON-RPC `result` object, as far as the code reads it. -/
structure McpResult where
  tools : Option (List RawTool)
  content : Option (List ContentPart)
deriving DecidableEq

structure RpcErrorObj where
  message : Option Str
deriving DecidableEq

/-- A parsed JSON-RPC response body. -/
structure RpcResponse where
  error : Option RpcErrorObj
  result : Option McpResult
deriving DecidableEq

/-- The `params` of a `tools/call` request. -/
structure CallParams where
  name : Str
  arguments : Args
deriving DecidableEq

/-- The network oracle: one HTTP POST of a JSON-RPC payload
`(url, method, params)`.  `Except.error` models a transport failure or a
non-2xx status (`raise_for_status`). -/
structure Net where
  post : Str → Str → Option CallParams → Except Str RpcResponse

/-- The configuration values read by the modelled code (`app/config.py`). -/
structure Settings where
  gallery_service_url : Str
  rag_service_url : Str
  frontend_base_url : Str

-- ---------------------------------------------------------------------------
-- Protocol client (app/services/mcp_client.py)
-- ---------------------------------------------------------------------------

def _mcp_url (base_url : Str) : Str := rstripSlash base_url ++ ("/mcp".toList)

def _GALLERY_MCP (st : Settings) : Str := rstripSlash st.gallery_service_url ++ ("/mcp".toList)

def _RAG_MCP (st : Settings) : Str := rstripSlash st.rag_service_url ++ ("/mcp".toList)

/-- The `_mcp_request`: POST the JSON-RPC payload, raise on transport error or on
a JSON-RPC `error` field, else return `data.get("result", {})`. -/
def _mcp_request (net : Net) (url : Str) (method : Str) (params : Option CallParams) :
    Except Str McpResult :=
  match net.post url method params with
  | .error e => .error e
  | .ok data =>
    match data.error with
    | some err => .error (err.message.getD ("MCP error".toList))
    | none => .ok (data.result.getD ⟨none, none⟩)

/-- The `fetch_tools_from_url`: `tools/list` against a dynamic server's base URL;
re-raises every failure to the caller. -/
def fetch_tools_from_url (net : Net) (base_url : Str) : Except Str (List RawTool) :=
  match _mcp_request net (_mcp_url base_url) ("tools/list".toList) none with
  | .error e => .error e
  | .ok result => .ok (result.tools.getD [])

def tenantKey : Str := "tenant_id".toList

/-- The `"properties" in schema and "tenant_id" in schema.get("properties", {})`
test of `_mcp_tool_to_deepseek`. -/
def schemaHasTenant (schema : InputSchema) : Bool :=
  schema.properties.isSome && (schema.properties.getD []).any (fun kv => kv.1 = tenantKey)

/-- The `_mcp_tool_to_deepseek`: convert an MCP tool to the DeepSeek/OpenAI format,
dropping a `tenant_id` parameter from `properties` and `required` when present. -/
def _mcp_tool_to_deepseek (mcp_tool : RawTool) (drop_tenant_id : Bool) : ToolForLLM :=
  let schema := mcp_tool.inputSchema.getD ⟨none, none, none⟩
  let schema2 : InputSchema :=
    if drop_tenant_id && schemaHasTenant schema then
      let props := (schema.properties.getD []).filter (fun kv => kv.1 ≠ tenantKey)
      let req := (schema.required.getD []).filter (fun x => x ≠ tenantKey)
      ⟨some ("object".toList), some props, if req.isEmpty then none else some req⟩
    else schema
  ⟨"function".toList, ⟨mcp_tool.name.getD [], mcp_tool.description.getD [], schema2⟩⟩

/-- The `get_gallery_tools_for_llm`: the gallery provider's tool list is fetched
from the fixed gallery endpoint; every failure is swallowed into `[]`. -/
def get_gallery_tools_for_llm (st : Settings) (net : Net) : List ToolForLLM :=
  match _mcp_request net (_GALLERY_MCP st) ("tools/list".toList) none with
  | .ok result => (result.tools.getD []).map (fun t => _mcp_tool_to_deepseek t true)
  | .error _ => []

/-- The `get_rag_tools_for_llm`, same shape against the RAG endpoint. -/
def get_rag_tools_for_llm (st : Settings) (net : Net) : List ToolForLLM :=
  match _mcp_request net (_RAG_MCP st) ("tools/list".toList) none with
  | .ok result => (result.tools.getD []).map (fun t => _mcp_tool_to_deepseek t true)
  | .error _ => []

/-- First `content` entry whose `type` is `"text"`, else the empty string. -/
def extractText (content : List ContentPart) : Str :=
  match content.find? (fun p => p.type = some ("text".toList)) with
  | some p => p.text.getD []
  | none => []

/-- Python `args = dict(arguments); args[k] = v` (overwrite or append). -/
def setKey (l : Args) (k v : Str) : Args :=
  if l.any (fun kv => kv.1 = k) then l.map (fun kv => if kv.1 = k then (k, v) else kv)
  else l ++ [(k, v)]

/-- The outbound arguments of `call_gallery_tool`:
`args = dict(arguments); args["tenant_id"] = str(tenant_id)`. -/
def call_gallery_tool_args (tenant_id : UUIDv) (arguments : Args) : Args :=
  setKey arguments tenantKey (uuidStr tenant_id)

def call_gallery_tool (st : Settings) (net : Net) (tenant_id : UUIDv) (name : Str)
    (arguments : Args) : Except Str Str :=
  match _mcp_request net (_GALLERY_MCP st) ("tools/call".toList)
      (some ⟨name, call_gallery_tool_args tenant_id arguments⟩) with
  | .error e => .error e
  | .ok result => .ok (extractText (result.content.getD []))

/-- The outbound arguments of `call_rag_tool`: `tenant_id` is injected only for
`list_documents` and `search_documents`. -/
def call_rag_tool_args (tenant_id : UUIDv) (name : Str) (arguments : Args) : Args :=
  if name = "list_documents".toList ∨ name = "search_documents".toList then
    setKey arguments tenantKey (uuidStr tenant_id)
  else arguments

def call_rag_tool (st : Settings) (net : Net) (tenant_id : UUIDv) (name : Str)
    (arguments : Args) : Except Str Str :=
  match _mcp_request net (_RAG_MCP st) ("tools/call".toList)
      (some ⟨name, call_rag_tool_args tenant_id name arguments⟩) with
  | .error e => .error e
  | .ok result => .ok (extractText (result.content.getD []))

/-- The `call_mcp_tool_by_url`: dynamic-server invocation, arguments forwarded
verbatim (no tenant injection). -/
def call_mcp_tool_by_url (net : Net) (base_url : Str) (name : Str) (arguments : Args) :
    Except Str Str :=
  match _mcp_request net (_mcp_url base_url) ("tools/call".toList) (some ⟨name, arguments⟩) with
  | .error e => .error e
  | .ok result => .ok (extractText (result.content.getD []))

def GALLERY_TOOL_NAMES : List Str := ["list_galleries".toList, "show_gallery".toList]

def RAG_TOOL_NAMES : List Str :=
  ["list_documents".toList, "get_document".toList, "search_documents".toList]

-- ---------------------------------------------------------------------------
-- Dynamic server registry (app/services/cabinet_service.py, read-only here)
-- ---------------------------------------------------------------------------

structure McpServer where
  id : UUIDv
  tenant_id : UUIDv
  name : Str
  base_url : Str
  enabled : Bool
deriving DecidableEq

/-- The `mcp_servers` table; list order models the `created_at desc` ordering
used by `list_mcp_servers`. -/
abbrev DB := List McpServer

def list_mcp_servers (db : DB) (tenant_id : UUIDv) : List McpServer :=
  db.filter (fun s => s.tenant_id = tenant_id)

/-- The `get_mcp_server` (`scalar_one_or_none`; ids are a unique primary key). -/
def get_mcp_server (db : DB) (tenant_id : UUIDv) (server_id : UUIDv) : Option McpServer :=
  db.find? (fun s => s.id = server_id && s.tenant_id = tenant_id)

-- ---------------------------------------------------------------------------
-- Tool catalog and router (app/services/user_chat_mcp_service.py)
-- ---------------------------------------------------------------------------

/-- The `f"mcp_{s.id}__{name}"`. -/
def prefixedToolName (sid : UUIDv) (name : Str) : Str :=
  "mcp_".toList ++ uuidStr sid ++ "__".toList ++ name

/-- The body of the per-server loop of `_get_all_tools_for_llm`: skip unnamed
tools, prefix the name, keep the description or generate a fallback, copy the
schema as-is. -/
def dyn_tools_of (s : McpServer) (raw : List RawTool) : List ToolForLLM :=
  raw.filterMap (fun t =>
    let name := t.name.getD []
    if name = [] then none
    else
      let desc := stripWs (t.description.getD [])
      some ⟨"function".toList,
        ⟨prefixedToolName s.id name,
         if desc = [] then
           "Инструмент ".toList ++ name ++ " (сервер ".toList ++ s.name ++ ")".toList
         else desc,
         t.inputSchema.getD ⟨none, none, none⟩⟩⟩)

/-- The `_get_all_tools_for_llm`: built-in Gallery and RAG tools plus the enabled
dynamic servers' tools; a failing `fetch_tools_from_url` is caught per server
(`except Exception: continue`).  Typed in `Except` to record that no exception
escapes. -/
def _get_all_tools_for_llm (st : Settings) (net : Net) (db : DB) (tenant_id : UUIDv) :
    Except Str (List ToolForLLM) :=
  Except.ok (
    get_gallery_tools_for_llm st net ++ get_rag_tools_for_llm st net ++
    (list_mcp_servers db tenant_id).foldl (fun out s =>
      if s.enabled then
        match fetch_tools_from_url net s.base_url with
        | .ok raw => out ++ dyn_tools_of s raw
        | .error _ => out
      else out) [])

def errInvalidServerId : Str := "Ошибка: неверный идентификатор сервера.".toList

def errServerNotFound : Str := "Ошибка: MCP сервер не найден.".toList

def errToolCallPre : Str := "Ошибка вызова инструмента: ".toList

def unknownToolMsg (name : Str) : Str :=
  "Неизвестный инструмент: ".toList ++ name ++ ".".toList

def errPre : Str := "Ошибка: ".toList

/-- The `_call_tool`: route a requested tool call.  Gallery names first, then RAG
names, then the `mcp_<uuid>__name` convention (invalid id / unknown server /
failing call are returned as error strings), else the unknown-tool string.
Exceptions of the built-in gallery/RAG calls are not caught here (they are
caught by the orchestration loop). -/
def _call_tool (st : Settings) (net : Net) (db : DB) (tenant_id : UUIDv) (name : Str)
    (arguments : Args) : Except Str Str :=
  if name ∈ GALLERY_TOOL_NAMES then call_gallery_tool st net tenant_id name arguments
  else if name ∈ RAG_TOOL_NAMES then call_rag_tool st net tenant_id name arguments
  else
    match split_dunder name with
    | some (pre, inner_name) =>
      if ("mcp_".toList).isPrefixOf name then
        match pyParseUUID (replace_mcp pre) with
        | none => .ok errInvalidServerId
        | some server_uuid =>
          match get_mcp_server db tenant_id server_uuid with
          | none => .ok errServerNotFound
          | some server =>
            match call_mcp_tool_by_url net server.base_url inner_name arguments with
            | .ok s => .ok s
            | .error e => .ok (errToolCallPre ++ e)
      else .ok (unknownToolMsg name)
    | none => .ok (unknownToolMsg name)

-- ---------------------------------------------------------------------------
-- Completion backend (app/llm_client.py) and conversation messages
-- ---------------------------------------------------------------------------

/-- One tool call as returned by `chat_once_with_tools`: the fields `id`,
`name`, `arguments` are always present (defaulted to `""`/`{}` there). -/
structure ToolCallIn where
  id : Str
  name : Str
  arguments : Args
deriving DecidableEq

/-- Return value of `chat_once_with_tools`: `content` is always a string,
`tool_calls` is `None` or a list. -/
structure LLMOut where
  content : Str
  tool_calls : Option (List ToolCallIn)
deriving DecidableEq

structure AsstFunc where
  name : Str
  arguments : Str
deriving DecidableEq

structure AsstToolCall where
  id : Str
  type : Str
  function : AsstFunc
deriving DecidableEq

/-- A conversation message dict: `role`, `content`, optional `tool_calls`,
optional `tool_call_id`. -/
structure Msg where
  role : Str
  content : Option Str
  tool_calls : Option (List AsstToolCall)
  tool_call_id : Option Str
deriving DecidableEq

/-- The completion backend as an oracle (non-raising behaviours; a raising
backend propagates out of the turn by design and is out of the modelled
universe). -/
structure ChatEnv where
  llmTools : Str → List Msg → List ToolForLLM → LLMOut
  llmPlain : Str → List Msg → Str

/-- The `json.dumps` of an arguments dict, with values kept as opaque
pre-serialized strings (the serialization text itself is never inspected by
the modelled code). -/
def jsonDumpsArgs (args : Args) : Str :=
  '\x7b' :: (List.intercalate (", ".toList)
    (args.map (fun kv => '"' :: kv.1 ++ "\": ".toList ++ kv.2))) ++ ['\x7d']

-- ---------------------------------------------------------------------------
-- Orchestration loop (run_user_chat_with_mcp_tools)
-- ---------------------------------------------------------------------------

def MAX_TOOL_ROUNDS : Nat := 3

def CONTEXT_MESSAGE_LIMIT : Nat := 10

def _CONTEXT_TENANT_BLOCK : Str :=
  ("\n\nКонтекст: диалог ведётся в рамках текущего тенанта (пользователя). Идентификатор тенанта уже известен системе и подставляется автоматически при вызове инструментов галереи и документов. Никогда не проси пользователя ввести tenant_id, UUID тенанта или другие внутренние идентификаторы. На вопросы «какие галереи», «покажи галереи», «какие документы» сразу вызывай инструменты list_galleries или list_documents соответственно.\n\nИзображения из галереи: инструмент show_gallery возвращает список URL-путей изображений (каждая строка — один путь вида /api/v1/tenants/.../me/gallery/.../file). Формат отображения ссылок на изображения задаётся в системном промпте.\n").toList

def _TELEGRAM_CONTEXT : Str :=
  ("\n\nОбрати внимание! Этот запрос от телеграм бота.").toList

/-- The `prompt_with_context` assembly at the top of `run_user_chat_with_mcp_tools`. -/
def promptWithContext (system_prompt : Str) (from_telegram : Bool) : Str :=
  stripWs system_prompt ++ _CONTEXT_TENANT_BLOCK ++
    (if from_telegram then _TELEGRAM_CONTEXT else [])

-- The gallery-path rewriting `_inject_base_url_to_image_paths`:
-- `re.sub(r"(?<![\"'])(/api/v1/tenants/[^/]+/me/gallery/[^\s\"']+)", base + m, text)`.

def lit_tenants : Str := "/api/v1/tenants/".toList

def lit_gallery : Str := "/me/gallery/".toList

/-- The `[^\s"']` complement. -/
def isStopChar (c : Char) : Bool := isPySpace c || c = '"' || c = '\''

/-- The look-behind class `["']`. -/
def isQuoteChar (c : Char) : Bool := c = '"' || c = '\''

/-- One attempted match of the path regular expression at the head of `s`
(the greedy `[^/]+` can only hand the single `'/'`-starting position to
`/me/gallery/`, so backtracking collapses to this direct form). -/
def matchGalleryPath (s : Str) : Option (Str × Str) :=
  match stripPre? lit_tenants s with
  | none => none
  | some t =>
    let seg := t.takeWhile (fun c => c ≠ '/')
    if seg = [] then none
    else
      match stripPre? lit_gallery (t.dropWhile (fun c => c ≠ '/')) with
      | none => none
      | some t2 =>
        let tl := t2.takeWhile (fun c => !(isStopChar c))
        if tl = [] then none
        else some (lit_tenants ++ seg ++ lit_gallery ++ tl,
          t2.dropWhile (fun c => !(isStopChar c)))

/-- The left-to-right scan of `re.sub`: at each position whose preceding
character is not a quote, try the pattern; on a match emit `base ++ match` and
continue after it, else copy one character.  Fuel is the remaining length
(every step consumes at least one character). -/
def injectScan (base : Str) : Nat → Bool → Str → Str
  | 0, _, s => s
  | _ + 1, _, [] => []
  | fuel + 1, prevQuote, c :: cs =>
    if prevQuote then c :: injectScan base fuel (isQuoteChar c) cs
    else
      match matchGalleryPath (c :: cs) with
      | some (m, rest) =>
        base ++ m ++ injectScan base fuel
          (match m.getLast? with | some x => isQuoteChar x | none => false) rest
      | none => c :: injectScan base fuel (isQuoteChar c) cs

/-- The `_inject_base_url_to_image_paths` (the `tenant_id` parameter is unused in
the source as well). -/
def _inject_base_url_to_image_paths (st : Settings) (text : Str) (tenant_id : UUIDv) : Str :=
  if rstripSlash st.frontend_base_url = [] then text
  else injectScan (rstripSlash st.frontend_base_url) text.length false text

/-- One record per completion round of a chat turn: the message list sent,
the backend's output, and the messages appended before the next round. -/
structure RoundRec where
  requestMessages : List Msg
  out : LLMOut
  appended : List Msg
deriving DecidableEq

/-- Observable result of a chat turn: final text, the message lists of plain
(`chat_once`) calls, and the per-round records of `chat_once_with_tools`
calls. -/
structure RunResult where
  text : Str
  plainRequests : List (List Msg)
  rounds : List RoundRec
deriving DecidableEq

/-- The assistant message carrying raw tool calls (`content or None`,
arguments re-serialized). -/
def assistantMsgOf (content : Str) (tcs : List ToolCallIn) : Msg :=
  { role := "assistant".toList,
    content := if content = [] then none else some content,
    tool_calls := some (tcs.map (fun tc =>
      ⟨tc.id, "function".toList, ⟨tc.name, jsonDumpsArgs tc.arguments⟩⟩)),
    tool_call_id := none }

/-- One tool execution of the round loop: `_call_tool` under
`try/except Exception as e: result = f"Ошибка: {e}"`, appended as a
`role="tool"` message correlated by `tool_call_id`. -/
def execToolCall (st : Settings) (net : Net) (db : DB) (tenant_id : UUIDv)
    (tc : ToolCallIn) : Msg :=
  { role := "tool".toList,
    content := some (match _call_tool st net db tenant_id tc.name tc.arguments with
      | .ok s => s
      | .error e => errPre ++ e),
    tool_calls := none,
    tool_call_id := some tc.id }

def fallbackText : Str := "Достигнут лимит вызовов инструментов.".toList

/-- The messages appended in one tool round: the assistant message carrying
the raw tool calls, then one tool-result message per requested call, in
order. -/
def roundAppended (st : Settings) (net : Net) (db : DB) (tenant_id : UUIDv)
    (out : LLMOut) (tc : ToolCallIn) (tcs : List ToolCallIn) : List Msg :=
  assistantMsgOf out.content (tc :: tcs) ::
    (tc :: tcs).map (execToolCall st net db tenant_id)

/-- The `for _ in range(MAX_TOOL_ROUNDS)` loop of
`run_user_chat_with_mcp_tools`, with the last seen `content` threaded through;
fuel exhaustion is the `content or "Достигнут лимит …"` return after the
loop. -/
def chatLoop (st : Settings) (env : ChatEnv) (net : Net) (db : DB) (tenant_id : UUIDv)
    (prompt : Str) (tools : List ToolForLLM) :
    Nat → List Msg → Str → Str × List RoundRec
  | 0, _, lastContent =>
    (if lastContent = [] then fallbackText else lastContent, [])
  | fuel + 1, msgs, _ =>
    match (env.llmTools prompt msgs tools).tool_calls with
    | none =>
      (_inject_base_url_to_image_paths st (env.llmTools prompt msgs tools).content tenant_id,
        [⟨msgs, env.llmTools prompt msgs tools, []⟩])
    | some [] =>
      (_inject_base_url_to_image_paths st (env.llmTools prompt msgs tools).content tenant_id,
        [⟨msgs, env.llmTools prompt msgs tools, []⟩])
    | some (tc :: tcs) =>
      let appended := roundAppended st net db tenant_id (env.llmTools prompt msgs tools) tc tcs
      let next := chatLoop st env net db tenant_id prompt tools fuel (msgs ++ appended)
        (env.llmTools prompt msgs tools).content
      (next.1, ⟨msgs, env.llmTools prompt msgs tools, appended⟩ :: next.2)

/-- The `run_user_chat_with_mcp_tools` (the logging-only parameters `is_admin`,
`is_test`, `session_id` only feed the exchange logger and are omitted).
Catalog build, the empty-catalog fast path over `chat_once`, else the bounded
tool loop; the caller-supplied history is truncated once to the last
`CONTEXT_MESSAGE_LIMIT` messages. -/
def run_user_chat_with_mcp_tools (st : Settings) (env : ChatEnv) (net : Net) (db : DB)
    (tenant_id : UUIDv) (system_prompt : Str) (messages : List Msg)
    (from_telegram : Bool) : Except Str RunResult :=
  match _get_all_tools_for_llm st net db tenant_id with
  | .error e => .error e
  | .ok tools =>
    if tools = [] then
      .ok ⟨env.llmPlain (promptWithContext system_prompt from_telegram)
            (takeLast CONTEXT_MESSAGE_LIMIT messages),
          [takeLast CONTEXT_MESSAGE_LIMIT messages], []⟩
    else
      .ok ⟨(chatLoop st env net db tenant_id (promptWithContext system_prompt from_telegram)
              tools MAX_TOOL_ROUNDS (takeLast CONTEXT_MESSAGE_LIMIT messages) []).1,
          [],
          (chatLoop st env net db tenant_id (promptWithContext system_prompt from_telegram)
              tools MAX_TOOL_ROUNDS (takeLast CONTEXT_MESSAGE_LIMIT messages) []).2⟩

-- ---------------------------------------------------------------------------
-- Observation helpers and concrete fixtures used by witnesses
-- ---------------------------------------------------------------------------

/-- Key lookup in an arguments object (first match, as in a JSON dict). -/
def lookupKey (l : Args) (k : Str) : Option Str :=
  (l.find? (fun kv => kv.1 = k)).map (fun kv => kv.2)

def runTextOf (e : Except Str RunResult) : Str :=
  match e with
  | .ok r => r.text
  | .error _ => []

def runRoundLens (e : Except Str RunResult) : List Nat :=
  match e with
  | .ok r => r.rounds.map (fun rr => rr.requestMessages.length)
  | .error _ => []

def resOfRun (e : Except Str RunResult) : RunResult :=
  match e with
  | .ok r => r
  | .error _ => ⟨[], [], []⟩

/-- Settings with the public base address left empty. -/
def stW : Settings := ⟨"http://gal".toList, "http://rag".toList, []⟩

/-- Settings with a configured public base address. -/
def stCE : Settings := ⟨"http://gal".toList, "http://rag".toList, "http://pub".toList⟩

/-- A network where every request fails at transport level. -/
def netFail : Net := ⟨fun _ _ _ => .error ("connection refused".toList)⟩

def rawW : RawTool := ⟨some ("gtool".toList), some ("desc".toList), none⟩

def cW : ToolForLLM := _mcp_tool_to_deepseek rawW true

/-- A network whose every `tools/list` returns one tool and whose `tools/call`
returns a text part. -/
def netW : Net := ⟨fun _ method _ =>
  if method = "tools/list".toList then .ok ⟨none, some ⟨some [rawW], none⟩⟩
  else .ok ⟨none, some ⟨none, some [⟨some ("text".toList), some ("result".toList)⟩]⟩⟩⟩

def tcW : ToolCallIn := ⟨"call1".toList, "footool".toList, []⟩

/-- A completion backend that requests a tool call on every round. -/
def envAlways : ChatEnv := ⟨fun _ _ _ => ⟨"ok".toList, some [tcW]⟩, fun _ _ => "plain".toList⟩

def msg0 : Msg := ⟨"user".toList, some ("hi".toList), none, none⟩

def msgs10 : List Msg := List.replicate 10 msg0

/-- A backend that requests a tool on the first round (10 request messages)
and answers plainly on the second (when the list has grown). -/
def env4 : ChatEnv :=
  ⟨fun _ m _ => if m.length ≤ 10 then ⟨"a".toList, some [tcW]⟩ else ⟨"b".toList, none⟩,
   fun _ _ => []⟩

def pathCE : Str := "/api/v1/tenants/t1/me/gallery/g1/file".toList

/-- A backend whose plain completion emits a gallery path. -/
def envPlainPath : ChatEnv := ⟨fun _ _ _ => ⟨[], none⟩, fun _ _ => pathCE⟩

/-- A backend that emits a gallery path as content while always requesting
tools (so the round cap is hit). -/
def envCap : ChatEnv := ⟨fun _ _ _ => ⟨pathCE, some [tcW]⟩, fun _ _ => []⟩

def srvW : McpServer := ⟨⟨7⟩, ⟨0⟩, "srv".toList, "http://dyn".toList, true⟩

/-- A backend that answers with a gallery path and no tool calls on the first
round. -/
def envOnce : ChatEnv := ⟨fun _ _ _ => ⟨pathCE, none⟩, fun _ _ => []⟩

/-- A raw tool whose schema carries a `tenant_id` parameter. -/
def rawTenant : RawTool :=
  ⟨some ("tt".toList), none,
   some ⟨some ("object".toList), some [(tenantKey, "S".toList)], some [tenantKey]⟩⟩

def runC3 : Except Str RunResult :=
  run_user_chat_with_mcp_tools stW envAlways netW [] ⟨0⟩ [] [] false

def rW : RoundRec := ((resOfRun runC3).rounds).headD ⟨[], ⟨[], none⟩, []⟩

-- ---------------------------------------------------------------------------
-- Lemmas about the string utilities
-- ---------------------------------------------------------------------------

theorem stripPre?_eq {p s t : Str} (h : stripPre? p s = some t) : s = p ++ t := by
  induction p generalizing s with
  | nil => simp [stripPre?] at h; simp [h]
  | cons a ps ih =>
    cases s with
    | nil => simp [stripPre?] at h
    | cons c cs =>
      by_cases hac : a = c
      · subst hac
        simp [stripPre?] at h
        simpa using ih h
      · simp [stripPre?, hac] at h

theorem split_dunder_sep (idp b : Str) (h : ∀ c ∈ idp, c ≠ '_') :
    split_dunder (idp ++ '_' :: '_' :: b) = some (idp, b) := by
  induction idp with
  | nil => simp [split_dunder]
  | cons c cs ih =>
    have hc : c ≠ '_' := h c (by simp)
    have ih' := ih (fun x hx => h x (by simp [hx]))
    cases cs with
    | nil => simp [split_dunder, hc]
    | cons d ds =>
      simp only [List.cons_append] at ih' ⊢
      rw [split_dunder]
      simp [hc, ih']

theorem replace_mcp_all_uuid (s : Str) (h : ∀ c ∈ s, isUUIDChar c) :
    replace_mcp s = s := by
  induction s with
  | nil => simp [replace_mcp]
  | cons c cs ih =>
    have hc : isUUIDChar c := h c (by simp)
    have hcm : c ≠ 'm' := by
      intro hm; subst hm; exact absurd hc (by decide)
    have hnp : (("mcp_".toList).isPrefixOf (c :: cs)) = false := by
      cases hmc : (('m' : Char) == c) with
      | false => simp [List.isPrefixOf, hmc]
      | true => exact absurd (eq_of_beq hmc).symm hcm
    rw [replace_mcp, hnp]
    simp [ih (fun x hx => h x (by simp [hx]))]

theorem replace_mcp_strip (s : Str) :
    replace_mcp ("mcp_".toList ++ s) = replace_mcp s := by
  rw [show "mcp_".toList ++ s = 'm' :: 'c' :: 'p' :: '_' :: s from rfl]
  rw [replace_mcp]
  simp [List.isPrefixOf]

theorem replace_urn_all_uuid (s : Str) (h : ∀ c ∈ s, isUUIDChar c) :
    replace_urn s = s := by
  induction s with
  | nil => simp [replace_urn]
  | cons c cs ih =>
    have hc : isUUIDChar c := h c (by simp)
    have hcm : c ≠ 'u' := by
      intro hm; subst hm; exact absurd hc (by decide)
    have hnp : (("urn:".toList).isPrefixOf (c :: cs)) = false := by
      cases hmc : (('u' : Char) == c) with
      | false => simp [List.isPrefixOf, hmc]
      | true => exact absurd (eq_of_beq hmc).symm hcm
    rw [replace_urn, hnp]
    simp [ih (fun x hx => h x (by simp [hx]))]

theorem replace_uuidc_all_uuid (s : Str) (h : ∀ c ∈ s, isUUIDChar c) :
    replace_uuidc s = s := by
  induction s with
  | nil => simp [replace_uuidc]
  | cons c cs ih =>
    have hc : isUUIDChar c := h c (by simp)
    have hcm : c ≠ 'u' := by
      intro hm; subst hm; exact absurd hc (by decide)
    have hnp : (("uuid:".toList).isPrefixOf (c :: cs)) = false := by
      cases hmc : (('u' : Char) == c) with
      | false => simp [List.isPrefixOf, hmc]
      | true => exact absurd (eq_of_beq hmc).symm hcm
    rw [replace_uuidc, hnp]
    simp [ih (fun x hx => h x (by simp [hx]))]

theorem stripBraces_id (s : Str) (h : ∀ c ∈ s, isBrace c = false) :
    stripBraces s = s := by
  have h1 : s.dropWhile isBrace = s := by
    cases s with
    | nil => rfl
    | cons c cs => simp [List.dropWhile_cons, h c (by simp)]
  rw [stripBraces, h1]
  have h2 : s.reverse.dropWhile isBrace = s.reverse := by
    cases hr : s.reverse with
    | nil => rfl
    | cons c cs =>
      have hc : c ∈ s := by
        have : c ∈ s.reverse := by rw [hr]; simp
        simpa using this
      simp [List.dropWhile_cons, h c hc]
  rw [h2, List.reverse_reverse]

theorem toHexRev_length (k n : Nat) : (toHexRev k n).length = k := by
  induction k generalizing n with
  | zero => rfl
  | succ k ih => simp [toHexRev, ih]

theorem toHexRev_lt (k n : Nat) : ∀ d ∈ toHexRev k n, d < 16 := by
  induction k generalizing n with
  | zero => simp [toHexRev]
  | succ k ih =>
    intro d hd
    simp [toHexRev] at hd
    rcases hd with h | h
    · subst h; exact Nat.mod_lt _ (by norm_num)
    · exact ih _ d h

theorem mod_mul16 (n m : Nat) (hm : 0 < m) :
    n % (16 * m) = 16 * (n / 16 % m) + n % 16 := by
  have h1 := Nat.div_add_mod n 16
  have h2 := Nat.div_add_mod (n / 16) m
  have hr : n % 16 < 16 := Nat.mod_lt _ (by norm_num)
  have hb : n / 16 % m < m := Nat.mod_lt _ hm
  have harg : n = 16 * m * (n / 16 / m) + (16 * (n / 16 % m) + n % 16) := by
    calc n = 16 * (n / 16) + n % 16 := h1.symm
    _ = 16 * (m * (n / 16 / m) + n / 16 % m) + n % 16 := by rw [h2]
    _ = 16 * m * (n / 16 / m) + (16 * (n / 16 % m) + n % 16) := by ring
  calc n % (16 * m)
      = (16 * m * (n / 16 / m) + (16 * (n / 16 % m) + n % 16)) % (16 * m) := by
        rw [← harg]
    _ = (16 * (n / 16 % m) + n % 16) % (16 * m) := by rw [Nat.mul_add_mod]
    _ = 16 * (n / 16 % m) + n % 16 := Nat.mod_eq_of_lt (by omega)

theorem digitsBE_acc (ds : List Nat) (a : Nat) :
    ds.foldl (fun a d => 16 * a + d) a = a * 16 ^ ds.length + digitsBE ds := by
  induction ds generalizing a with
  | nil => simp [digitsBE]
  | cons d ds ih =>
    simp only [List.foldl_cons, digitsBE] at *
    rw [ih, ih (16 * 0 + d)]
    simp [List.length_cons]
    ring

theorem digitsBE_toHexRev (k n : Nat) :
    digitsBE (toHexRev k n).reverse = n % 16 ^ k := by
  induction k generalizing n with
  | zero => simp [toHexRev, digitsBE, Nat.mod_one]
  | succ k ih =>
    have : (toHexRev (k + 1) n).reverse = (toHexRev k (n / 16)).reverse ++ [n % 16] := by
      simp [toHexRev]
    rw [this]
    unfold digitsBE
    rw [List.foldl_append]
    have hfold : (toHexRev k (n / 16)).reverse.foldl (fun a d => 16 * a + d) 0
        = n / 16 % 16 ^ k := ih (n / 16)
    simp only [List.foldl_cons, List.foldl_nil] at *
    rw [hfold]
    rw [pow_succ, mul_comm (16 ^ k) 16, mod_mul16 n (16 ^ k) (Nat.pos_pow_of_pos k (by norm_num))]

theorem hexVal_hexDigitOf : ∀ d, d < 16 → hexVal (hexDigitOf d) = d := by decide

theorem isHexDig_hexDigitOf : ∀ d, d < 16 → isHexDig (hexDigitOf d) = true := by decide

theorem isUUIDChar_hexDigitOf : ∀ d, d < 16 → isUUIDChar (hexDigitOf d) = true := by decide

theorem hexToNat_map_acc (ds : List Nat) (h : ∀ d ∈ ds, d < 16) (a : Nat) :
    (ds.map hexDigitOf).foldl (fun acc c => 16 * acc + hexVal c) a
      = ds.foldl (fun acc d => 16 * acc + d) a := by
  induction ds generalizing a with
  | nil => simp
  | cons d ds ih =>
    simp only [List.map_cons, List.foldl_cons]
    rw [hexVal_hexDigitOf d (h d (by simp))]
    exact ih (fun x hx => h x (by simp [hx])) _

theorem hexToNat_map (ds : List Nat) (h : ∀ d ∈ ds, d < 16) :
    hexToNat (ds.map hexDigitOf) = digitsBE ds := by
  unfold hexToNat digitsBE
  exact hexToNat_map_acc ds h 0

theorem hexDigitOf_ne_dash : ∀ d, d < 16 → hexDigitOf d ≠ '-' := by decide

theorem isUUIDChar_not_brace (c : Char) (h : isUUIDChar c = true) : isBrace c = false := by
  cases hb : isBrace c
  · rfl
  · simp [isBrace] at hb
    rcases hb with rfl | rfl <;> exact absurd h (by decide)

theorem isUUIDChar_not_underscore (c : Char) (h : isUUIDChar c = true) : c ≠ '_' := by
  intro hc; subst hc; exact absurd h (by decide)

theorem hexChars32_length (n : Nat) : (hexChars32 n).length = 32 := by
  simp [hexChars32, toHexRev_length]

theorem hexChars32_mem {n : Nat} {c : Char} (h : c ∈ hexChars32 n) :
    ∃ d, d < 16 ∧ c = hexDigitOf d := by
  simp only [hexChars32, List.mem_map, List.mem_reverse] at h
  obtain ⟨d, hd, rfl⟩ := h
  exact ⟨d, toHexRev_lt 32 n d hd, rfl⟩

theorem insertDashes_mem {s : Str} {c : Char} (h : c ∈ insertDashes s) :
    c = '-' ∨ c ∈ s := by
  rw [insertDashes] at h
  rcases List.mem_append.mp h with h1 | h1
  · rcases List.mem_append.mp h1 with h2 | h2
    · rcases List.mem_append.mp h2 with h3 | h3
      · rcases List.mem_append.mp h3 with h4 | h4
        · exact Or.inr (List.take_subset _ _ h4)
        · rcases List.mem_cons.mp h4 with rfl | h5
          · exact Or.inl rfl
          · exact Or.inr (List.drop_subset _ _ (List.take_subset _ _ h5))
      · rcases List.mem_cons.mp h3 with rfl | h5
        · exact Or.inl rfl
        · exact Or.inr (List.drop_subset _ _ (List.take_subset _ _ h5))
    · rcases List.mem_cons.mp h2 with rfl | h5
      · exact Or.inl rfl
      · exact Or.inr (List.drop_subset _ _ (List.take_subset _ _ h5))
  · rcases List.mem_cons.mp h1 with rfl | h5
    · exact Or.inl rfl
    · exact Or.inr (List.drop_subset _ _ h5)

theorem filter_insertDashes (s : Str) (h : ∀ c ∈ s, c ≠ '-') :
    (insertDashes s).filter (fun c => c ≠ '-') = s := by
  have hseg : ∀ (t : Str), t ⊆ s → t.filter (fun c => c ≠ '-') = t := by
    intro t ht
    apply List.filter_eq_self.mpr
    intro a ha
    simpa using h a (ht ha)
  have h8 := hseg (s.take 8) (List.take_subset _ _)
  have hA := hseg ((s.drop 8).take 4) (fun _ hx => List.drop_subset _ _ (List.take_subset _ _ hx))
  have hB := hseg ((s.drop 12).take 4) (fun _ hx => List.drop_subset _ _ (List.take_subset _ _ hx))
  have hC := hseg ((s.drop 16).take 4) (fun _ hx => List.drop_subset _ _ (List.take_subset _ _ hx))
  have hD := hseg (s.drop 20) (List.drop_subset _ _)
  have e16 : (s.drop 16).take 4 ++ s.drop 20 = s.drop 16 := by
    rw [show s.drop 20 = (s.drop 16).drop 4 by rw [List.drop_drop]]
    exact List.take_append_drop 4 (s.drop 16)
  have e12 : (s.drop 12).take 4 ++ s.drop 16 = s.drop 12 := by
    rw [show s.drop 16 = (s.drop 12).drop 4 by rw [List.drop_drop]]
    exact List.take_append_drop 4 (s.drop 12)
  have e8 : (s.drop 8).take 4 ++ s.drop 12 = s.drop 8 := by
    rw [show s.drop 12 = (s.drop 8).drop 4 by rw [List.drop_drop]]
    exact List.take_append_drop 4 (s.drop 8)
  rw [insertDashes]
  simp only [List.filter_append]
  rw [List.filter_cons_of_neg (by decide), List.filter_cons_of_neg (by decide),
    List.filter_cons_of_neg (by decide), List.filter_cons_of_neg (by decide)]
  rw [h8, hA, hB, hC, hD]
  simp only [List.append_assoc]
  rw [e16, e12, e8, List.take_append_drop]

theorem pyParseUUID_uuidStr (u : UUIDv) (hu : u.val < 2 ^ 128) :
    pyParseUUID (uuidStr u) = some u := by
  have hall : ∀ c ∈ insertDashes (hexChars32 u.val), isUUIDChar c := by
    intro c hc
    rcases insertDashes_mem hc with rfl | hc
    · decide
    · obtain ⟨d, hd, rfl⟩ := hexChars32_mem hc
      exact isUUIDChar_hexDigitOf d hd
  have hnb : ∀ c ∈ insertDashes (hexChars32 u.val), isBrace c = false :=
    fun c hc => isUUIDChar_not_brace c (hall c hc)
  have hndash : ∀ c ∈ hexChars32 u.val, c ≠ '-' := by
    intro c hc
    obtain ⟨d, hd, rfl⟩ := hexChars32_mem hc
    exact hexDigitOf_ne_dash d hd
  unfold pyParseUUID uuidStr
  rw [replace_urn_all_uuid _ hall, replace_uuidc_all_uuid _ hall, stripBraces_id _ hnb,
    filter_insertDashes _ hndash]
  have hhex : (hexChars32 u.val).all isHexDig = true := by
    apply List.all_eq_true.mpr
    intro c hc
    obtain ⟨d, hd, rfl⟩ := hexChars32_mem hc
    exact isHexDig_hexDigitOf d hd
  rw [pyParseHex, if_pos ⟨hexChars32_length _, hhex⟩]
  have hv : hexToNat (hexChars32 u.val) = u.val := by
    have hlt : ∀ d ∈ (toHexRev 32 u.val).reverse, d < 16 := by
      intro d hd
      exact toHexRev_lt 32 u.val d (List.mem_reverse.mp hd)
    rw [hexChars32, hexToNat_map _ hlt, digitsBE_toHexRev]
    exact Nat.mod_eq_of_lt (by calc u.val < 2 ^ 128 := hu
                                 _ = 16 ^ 32 := by norm_num)
  rw [hv]

theorem uuidStr_inj {u v : UUIDv} (hu : u.val < 2 ^ 128) (hv : v.val < 2 ^ 128)
    (h : uuidStr u = uuidStr v) : u = v := by
  have hp := pyParseUUID_uuidStr u hu
  rw [h, pyParseUUID_uuidStr v hv] at hp
  exact (Option.some_inj.mp hp).symm

theorem uuidStr_all_uuidChar (u : UUIDv) : ∀ c ∈ uuidStr u, isUUIDChar c := by
  intro c hc
  rcases insertDashes_mem hc with rfl | hc
  · decide
  · obtain ⟨d, hd, rfl⟩ := hexChars32_mem hc
    exact isUUIDChar_hexDigitOf d hd

theorem uuidStr_no_underscore (u : UUIDv) : ∀ c ∈ uuidStr u, c ≠ '_' :=
  fun c hc => isUUIDChar_not_underscore c (uuidStr_all_uuidChar u c hc)

theorem uuidStr_ne_nil (u : UUIDv) : uuidStr u ≠ [] := by
  intro h
  have hl := congrArg List.length h
  simp [uuidStr, insertDashes] at hl

theorem split_mcp_name (idp nm : Str) (hne : idp ≠ []) (h : ∀ c ∈ idp, c ≠ '_') :
    split_dunder ('m' :: 'c' :: 'p' :: '_' :: (idp ++ '_' :: '_' :: nm))
      = some ('m' :: 'c' :: 'p' :: '_' :: idp, nm) := by
  obtain ⟨i0, irest, rfl⟩ : ∃ i0 irest, idp = i0 :: irest := by
    cases idp with
    | nil => exact absurd rfl hne
    | cons a l => exact ⟨a, l, rfl⟩
  have h0 : i0 ≠ '_' := h i0 (by simp)
  have hsep := split_dunder_sep (i0 :: irest) nm h
  rw [List.cons_append] at hsep ⊢
  rw [split_dunder, if_neg (by decide)]
  rw [split_dunder, if_neg (by decide)]
  rw [split_dunder, if_neg (by decide)]
  rw [split_dunder, if_neg (by simp [h0])]
  rw [hsep]
  simp

-- ---------------------------------------------------------------------------
-- Lemmas about the orchestration loop
-- ---------------------------------------------------------------------------

theorem chatLoop_rounds_le (st : Settings) (env : ChatEnv) (net : Net) (db : DB)
    (tenant : UUIDv) (prompt : Str) (tools : List ToolForLLM) :
    ∀ fuel msgs last,
      (chatLoop st env net db tenant prompt tools fuel msgs last).2.length ≤ fuel := by
  intro fuel
  induction fuel with
  | zero => intro msgs last; simp [chatLoop]
  | succ n ih =>
    intro msgs last
    cases h : (env.llmTools prompt msgs tools).tool_calls with
    | none => simp [chatLoop, h]
    | some tcs =>
      cases tcs with
      | nil => simp [chatLoop, h]
      | cons tc rest =>
        simpa [chatLoop, h] using ih _ _

theorem chatLoop_round_spec (st : Settings) (env : ChatEnv) (net : Net) (db : DB)
    (tenant : UUIDv) (prompt : Str) (tools : List ToolForLLM) :
    ∀ fuel msgs last r, r ∈ (chatLoop st env net db tenant prompt tools fuel msgs last).2 →
      r.out = env.llmTools prompt r.requestMessages tools ∧
      ((r.out.tool_calls = none ∨ r.out.tool_calls = some []) → r.appended = []) ∧
      (∀ tc tcs, r.out.tool_calls = some (tc :: tcs) →
        r.appended = assistantMsgOf r.out.content (tc :: tcs) ::
          (tc :: tcs).map (execToolCall st net db tenant)) := by
  intro fuel
  induction fuel with
  | zero => intro msgs last r hr; simp [chatLoop] at hr
  | succ n ih =>
    intro msgs last r hr
    cases h : (env.llmTools prompt msgs tools).tool_calls with
    | none =>
      simp [chatLoop, h] at hr
      subst hr
      refine ⟨rfl, fun _ => rfl, fun tc tcs htc => ?_⟩
      simp at htc
      rw [h] at htc
      exact absurd htc (by simp)
    | some tcs =>
      cases tcs with
      | nil =>
        simp [chatLoop, h] at hr
        subst hr
        refine ⟨rfl, fun _ => rfl, fun tc tcs htc => ?_⟩
        simp at htc
        rw [h] at htc
        simp at htc
      | cons tc0 rest =>
        simp [chatLoop, h] at hr
        rcases hr with hr | hr
        · subst hr
          refine ⟨rfl, fun hcon => ?_, fun tc tcs htc => ?_⟩
          · simp only at hcon
            rw [h] at hcon
            rcases hcon with hcon | hcon <;> simp at hcon
          · simp only at htc
            rw [h] at htc
            injection htc with htc
            injection htc with h1 h2
            subst h1; subst h2
            rfl
        · exact ih _ _ r hr

theorem chatLoop_chain (st : Settings) (env : ChatEnv) (net : Net) (db : DB)
    (tenant : UUIDv) (prompt : Str) (tools : List ToolForLLM) :
    ∀ fuel msgs last,
      (∀ r, (chatLoop st env net db tenant prompt tools fuel msgs last).2.head? = some r →
        r.requestMessages = msgs) ∧
      List.Chain' (fun a b => b.requestMessages = a.requestMessages ++ a.appended)
        (chatLoop st env net db tenant prompt tools fuel msgs last).2 := by
  intro fuel
  induction fuel with
  | zero => intro msgs last; simp [chatLoop]
  | succ n ih =>
    intro msgs last
    cases h : (env.llmTools prompt msgs tools).tool_calls with
    | none =>
      constructor
      · intro r hr
        simp [chatLoop, h] at hr
        rw [← hr]
      · simp [chatLoop, h]
    | some tcs =>
      cases tcs with
      | nil =>
        constructor
        · intro r hr
          simp [chatLoop, h] at hr
          rw [← hr]
        · simp [chatLoop, h]
      | cons tc0 rest =>
        constructor
        · intro r hr
          simp [chatLoop, h] at hr
          rw [← hr]
        · simp only [chatLoop, h]
          apply List.chain'_cons'.mpr
          constructor
          · intro b hb
            rw [(ih _ _).1 b hb]
          · exact (ih _ _).2

theorem chatLoop_zero_eq (st : Settings) (env : ChatEnv) (net : Net) (db : DB)
    (tenant : UUIDv) (prompt : Str) (tools : List ToolForLLM) (msgs : List Msg) (last : Str) :
    chatLoop st env net db tenant prompt tools 0 msgs last
      = (if last = [] then fallbackText else last, []) := by
  simp [chatLoop]

theorem chatLoop_none_eq (st : Settings) (env : ChatEnv) (net : Net) (db : DB)
    (tenant : UUIDv) (prompt : Str) (tools : List ToolForLLM) (fuel : Nat)
    (msgs : List Msg) (last : Str)
    (h : (env.llmTools prompt msgs tools).tool_calls = none) :
    chatLoop st env net db tenant prompt tools (fuel + 1) msgs last
      = (_inject_base_url_to_image_paths st (env.llmTools prompt msgs tools).content tenant,
        [⟨msgs, env.llmTools prompt msgs tools, []⟩]) := by
  simp [chatLoop, h]

theorem chatLoop_some_nil_eq (st : Settings) (env : ChatEnv) (net : Net) (db : DB)
    (tenant : UUIDv) (prompt : Str) (tools : List ToolForLLM) (fuel : Nat)
    (msgs : List Msg) (last : Str)
    (h : (env.llmTools prompt msgs tools).tool_calls = some []) :
    chatLoop st env net db tenant prompt tools (fuel + 1) msgs last
      = (_inject_base_url_to_image_paths st (env.llmTools prompt msgs tools).content tenant,
        [⟨msgs, env.llmTools prompt msgs tools, []⟩]) := by
  simp [chatLoop, h]

theorem chatLoop_cons_eq (st : Settings) (env : ChatEnv) (net : Net) (db : DB)
    (tenant : UUIDv) (prompt : Str) (tools : List ToolForLLM) (fuel : Nat)
    (msgs : List Msg) (last : Str) {tc : ToolCallIn} {tcs : List ToolCallIn}
    (h : (env.llmTools prompt msgs tools).tool_calls = some (tc :: tcs)) :
    chatLoop st env net db tenant prompt tools (fuel + 1) msgs last
      = ((chatLoop st env net db tenant prompt tools fuel
            (msgs ++ roundAppended st net db tenant (env.llmTools prompt msgs tools) tc tcs)
            (env.llmTools prompt msgs tools).content).1,
        ⟨msgs, env.llmTools prompt msgs tools,
          roundAppended st net db tenant (env.llmTools prompt msgs tools) tc tcs⟩ ::
          (chatLoop st env net db tenant prompt tools fuel
            (msgs ++ roundAppended st net db tenant (env.llmTools prompt msgs tools) tc tcs)
            (env.llmTools prompt msgs tools).content).2) := by
  simp [chatLoop, h]

theorem chatLoop_always_tools (st : Settings) (env : ChatEnv) (net : Net) (db : DB)
    (tenant : UUIDv) (prompt : Str) (tools : List ToolForLLM)
    (hllm : ∀ p m tl, ∃ tc tcs, (env.llmTools p m tl).tool_calls = some (tc :: tcs)) :
    ∀ fuel msgs last, 0 < fuel →
      (chatLoop st env net db tenant prompt tools fuel msgs last).2.length = fuel ∧
      ∃ r, (chatLoop st env net db tenant prompt tools fuel msgs last).2.getLast? = some r ∧
        (chatLoop st env net db tenant prompt tools fuel msgs last).1
          = (if r.out.content = [] then fallbackText else r.out.content) := by
  intro fuel
  induction fuel with
  | zero => intro msgs last hf; exact absurd hf (by omega)
  | succ n ih =>
    intro msgs last _
    obtain ⟨tc, tcs, h⟩ := hllm prompt msgs tools
    rw [chatLoop_cons_eq st env net db tenant prompt tools n msgs last h]
    cases n with
    | zero =>
      rw [chatLoop_zero_eq]
      exact ⟨rfl, ⟨msgs, env.llmTools prompt msgs tools,
        roundAppended st net db tenant (env.llmTools prompt msgs tools) tc tcs⟩, rfl, rfl⟩
    | succ m =>
      obtain ⟨hlen, r, hlast, htext⟩ := ih
        (msgs ++ roundAppended st net db tenant (env.llmTools prompt msgs tools) tc tcs)
        (env.llmTools prompt msgs tools).content (by omega)
      obtain ⟨x, xs, hxx⟩ : ∃ x xs,
          (chatLoop st env net db tenant prompt tools (m + 1)
            (msgs ++ roundAppended st net db tenant (env.llmTools prompt msgs tools) tc tcs)
            (env.llmTools prompt msgs tools).content).2 = x :: xs := by
        cases hI : (chatLoop st env net db tenant prompt tools (m + 1)
            (msgs ++ roundAppended st net db tenant (env.llmTools prompt msgs tools) tc tcs)
            (env.llmTools prompt msgs tools).content).2 with
        | nil => rw [hI] at hlast; simp at hlast
        | cons x xs => exact ⟨x, xs, rfl⟩
      refine ⟨?_, r, ?_, ?_⟩
      · simp only [List.length_cons, hlen]
      · simp only [hxx, List.getLast?_cons_cons]
        rw [← hxx, hlast]
      · exact htext

theorem chatLoop_final_text (st : Settings) (env : ChatEnv) (net : Net) (db : DB)
    (tenant : UUIDv) (prompt : Str) (tools : List ToolForLLM) :
    ∀ fuel msgs last, 0 < fuel →
      ∃ r, (chatLoop st env net db tenant prompt tools fuel msgs last).2.getLast? = some r ∧
        ((r.out.tool_calls = none ∨ r.out.tool_calls = some []) →
          (chatLoop st env net db tenant prompt tools fuel msgs last).1
            = _inject_base_url_to_image_paths st r.out.content tenant) ∧
        (∀ tc tcs, r.out.tool_calls = some (tc :: tcs) →
          (chatLoop st env net db tenant prompt tools fuel msgs last).1
            = (if r.out.content = [] then fallbackText else r.out.content)) := by
  intro fuel
  induction fuel with
  | zero => intro msgs last hf; exact absurd hf (by omega)
  | succ n ih =>
    intro msgs last _
    cases h : (env.llmTools prompt msgs tools).tool_calls with
    | none =>
      rw [chatLoop_none_eq st env net db tenant prompt tools n msgs last h]
      refine ⟨⟨msgs, env.llmTools prompt msgs tools, []⟩, rfl, fun _ => rfl, fun tc tcs htc => ?_⟩
      simp only at htc
      rw [h] at htc
      exact absurd htc (by simp)
    | some tcs0 =>
      cases tcs0 with
      | nil =>
        rw [chatLoop_some_nil_eq st env net db tenant prompt tools n msgs last h]
        refine ⟨⟨msgs, env.llmTools prompt msgs tools, []⟩, rfl, fun _ => rfl, fun tc tcs htc => ?_⟩
        simp only at htc
        rw [h] at htc
        simp at htc
      | cons tc tcs =>
        rw [chatLoop_cons_eq st env net db tenant prompt tools n msgs last h]
        cases n with
        | zero =>
          rw [chatLoop_zero_eq]
          refine ⟨⟨msgs, env.llmTools prompt msgs tools,
            roundAppended st net db tenant (env.llmTools prompt msgs tools) tc tcs⟩,
            rfl, fun hcon => ?_, fun tc2 tcs2 _ => rfl⟩
          simp only at hcon
          rw [h] at hcon
          rcases hcon with hcon | hcon <;> simp at hcon
        | succ m =>
          obtain ⟨r, hlast, h1, h2⟩ := ih
            (msgs ++ roundAppended st net db tenant (env.llmTools prompt msgs tools) tc tcs)
            (env.llmTools prompt msgs tools).content (by omega)
          obtain ⟨x, xs, hxx⟩ : ∃ x xs,
              (chatLoop st env net db tenant prompt tools (m + 1)
                (msgs ++ roundAppended st net db tenant (env.llmTools prompt msgs tools) tc tcs)
                (env.llmTools prompt msgs tools).content).2 = x :: xs := by
            cases hI : (chatLoop st env net db tenant prompt tools (m + 1)
                (msgs ++ roundAppended st net db tenant (env.llmTools prompt msgs tools) tc tcs)
                (env.llmTools prompt msgs tools).content).2 with
            | nil => rw [hI] at hlast; simp at hlast
            | cons x xs => exact ⟨x, xs, rfl⟩
          refine ⟨r, ?_, h1, h2⟩
          simp only [hxx, List.getLast?_cons_cons]
          rw [← hxx, hlast]

theorem isPrefixOf_append_self (p t : Str) : p.isPrefixOf (p ++ t) = true := by
  induction p with
  | nil => simp [List.isPrefixOf]
  | cons c cs ih => simp [List.isPrefixOf, ih]

theorem injectScan_no_match (base : Str) :
    ∀ fuel (q : Bool) (s : Str), containsSub lit_tenants s = false →
      injectScan base fuel q s = s := by
  intro fuel
  induction fuel with
  | zero => intro q s h; rfl
  | succ n ih =>
    intro q s h
    cases s with
    | nil => rfl
    | cons c cs =>
      rw [containsSub] at h
      rw [Bool.or_eq_false_iff] at h
      have hm : matchGalleryPath (c :: cs) = none := by
        cases hsp : stripPre? lit_tenants (c :: cs) with
        | none => simp [matchGalleryPath, hsp]
        | some t =>
          have he := stripPre?_eq hsp
          have hpre : lit_tenants.isPrefixOf (c :: cs) = true := by
            rw [he]; exact isPrefixOf_append_self _ _
          rw [hpre] at h
          exact absurd h.1 (by simp)
      cases q with
      | true => simp [injectScan, ih _ _ h.2]
      | false => simp [injectScan, hm, ih _ _ h.2]

theorem prefixedToolName_eq (u : UUIDv) (n : Str) :
    prefixedToolName u n = 'm' :: 'c' :: 'p' :: '_' :: (uuidStr u ++ '_' :: '_' :: n) := by
  rw [prefixedToolName, List.append_assoc, List.append_assoc]
  rfl

theorem split_prefixedToolName (u : UUIDv) (n : Str) :
    split_dunder (prefixedToolName u n) = some ("mcp_".toList ++ uuidStr u, n) := by
  rw [prefixedToolName_eq,
    split_mcp_name (uuidStr u) n (uuidStr_ne_nil u) (uuidStr_no_underscore u)]
  rfl

theorem replace_mcp_uuidStr (u : UUIDv) :
    replace_mcp ("mcp_".toList ++ uuidStr u) = uuidStr u := by
  rw [replace_mcp_strip, replace_mcp_all_uuid _ (uuidStr_all_uuidChar u)]

theorem mcp_shaped_not_gallery (x : Str) :
    ('m' :: 'c' :: 'p' :: '_' :: x) ∉ GALLERY_TOOL_NAMES := by
  simp [GALLERY_TOOL_NAMES]

theorem mcp_shaped_not_rag (x : Str) :
    ('m' :: 'c' :: 'p' :: '_' :: x) ∉ RAG_TOOL_NAMES := by
  simp [RAG_TOOL_NAMES]

theorem mcp_isPrefixOf_prefixedToolName (u : UUIDv) (n : Str) :
    ("mcp_".toList).isPrefixOf (prefixedToolName u n) = true := by
  rw [prefixedToolName, List.append_assoc, List.append_assoc]
  exact isPrefixOf_append_self _ _

theorem lookupKey_setKey (l : Args) (k v : Str) : lookupKey (setKey l k v) k = some v := by
  induction l with
  | nil => simp [setKey, lookupKey, List.find?]
  | cons hd tl ih =>
    by_cases h1 : hd.1 = k
    · simp [setKey, lookupKey, List.any_cons, h1, List.find?]
    · by_cases h2 : tl.any (fun kv => kv.1 = k)
      · have hs : setKey (hd :: tl) k v = hd :: tl.map (fun kv => if kv.1 = k then (k, v) else kv) := by
          simp [setKey, List.any_cons, h1, h2]
        rw [hs]
        have hs2 : setKey tl k v = tl.map (fun kv => if kv.1 = k then (k, v) else kv) := by
          simp [setKey, h2]
        rw [hs2] at ih
        simp [lookupKey, List.find?, h1] at ih ⊢
        exact ih
      · have hs : setKey (hd :: tl) k v = hd :: (tl ++ [(k, v)]) := by
          simp [setKey, List.any_cons, h1, h2]
        rw [hs]
        have hs2 : setKey tl k v = tl ++ [(k, v)] := by
          simp [setKey, h2]
        rw [hs2] at ih
        simp [lookupKey, List.find?, h1] at ih ⊢
        exact ih

theorem call_tool_dynamic (st : Settings) (net : Net) (db : DB) (tenant : UUIDv)
    (u : UUIDv) (hu : u.val < 2 ^ 128) (nm : Str) (args : Args) :
    _call_tool st net db tenant (prefixedToolName u nm) args
      = (match get_mcp_server db tenant u with
         | none => .ok errServerNotFound
         | some server =>
           match call_mcp_tool_by_url net server.base_url nm args with
           | .ok s => .ok s
           | .error e => .ok (errToolCallPre ++ e)) := by
  have hng : prefixedToolName u nm ∉ GALLERY_TOOL_NAMES := by
    rw [prefixedToolName_eq]; exact mcp_shaped_not_gallery _
  have hnr : prefixedToolName u nm ∉ RAG_TOOL_NAMES := by
    rw [prefixedToolName_eq]; exact mcp_shaped_not_rag _
  simp only [_call_tool, hng, hnr, if_false, split_prefixedToolName,
    mcp_isPrefixOf_prefixedToolName, if_true, replace_mcp_uuidStr,
    pyParseUUID_uuidStr u hu]

theorem execToolCall_msgs (st : Settings) (net : Net) (db : DB) (tenant : UUIDv) :
    ∀ l : List ToolCallIn,
      ((l.map (execToolCall st net db tenant)).filter
        (fun m => m.role = "tool".toList)).map (fun m => m.tool_call_id)
        = l.map (fun tc => some tc.id) := by
  intro l
  induction l with
  | nil => rfl
  | cons tc tl ih =>
    simp only [List.map_cons, List.filter_cons]
    rw [if_pos (by simp [execToolCall])]
    simp only [List.map_cons, ih]
    rfl

-- ---------------------------------------------------------------------------
-- Claim theorems
-- ---------------------------------------------------------------------------

/-- C10: if the configured public base address (`frontend_base_url`) is empty,
the path post-processing function `_inject_base_url_to_image_paths` is the
identity: it returns every input text unchanged, for every tenant id. -/
theorem C10_inject_identity_on_empty_base (st : Settings) (text : Str) (tenant_id : UUIDv)
    (h : st.frontend_base_url = []) :
    _inject_base_url_to_image_paths st text tenant_id = text := by
  simp only [_inject_base_url_to_image_paths, h]
  simp [rstripSlash]

/-- C10 witness: concrete instance of the identity with an empty base. -/
theorem C10_witness :
    _inject_base_url_to_image_paths stW ("hello /api/v1/x".toList) ⟨0⟩
      = "hello /api/v1/x".toList :=
  C10_inject_identity_on_empty_base stW ("hello /api/v1/x".toList) ⟨0⟩ rfl

/-- C7: the rewriting `name ↦ "mcp_" + server.id + "__" + name` is injective
across (server id, original name) pairs (original names without `"__"`),
collides with no built-in tool name, and splitting the rewritten name at the
first `"__"` (plus the `replace("mcp_", "")` of the prefix) recovers the
server id and the original name. -/
theorem C7_prefixed_name_injective (u1 u2 : UUIDv) (n1 n2 : Str)
    (h1 : u1.val < 2 ^ 128) (h2 : u2.val < 2 ^ 128)
    (hn1 : containsSub ("__".toList) n1 = false)
    (hn2 : containsSub ("__".toList) n2 = false) :
    (prefixedToolName u1 n1 = prefixedToolName u2 n2 ↔ u1 = u2 ∧ n1 = n2) ∧
    (∀ b ∈ GALLERY_TOOL_NAMES ++ RAG_TOOL_NAMES, prefixedToolName u1 n1 ≠ b) ∧
    split_dunder (prefixedToolName u1 n1) = some ("mcp_".toList ++ uuidStr u1, n1) ∧
    replace_mcp ("mcp_".toList ++ uuidStr u1) = uuidStr u1 := by
  refine ⟨⟨fun heq => ?_, fun hp => by rw [hp.1, hp.2]⟩, ?_,
    split_prefixedToolName u1 n1, replace_mcp_uuidStr u1⟩
  · have hs1 := split_prefixedToolName u1 n1
    rw [heq, split_prefixedToolName u2 n2] at hs1
    have hp := Option.some_inj.mp hs1
    have hA := congrArg Prod.fst hp
    have hB := congrArg Prod.snd hp
    simp only at hA hB
    have hU : uuidStr u2 = uuidStr u1 := List.append_cancel_left hA
    exact ⟨(uuidStr_inj h2 h1 hU).symm, hB.symm⟩
  · intro b hb hcontra
    have hh : (prefixedToolName u1 n1).head? = some 'm' := by
      rw [prefixedToolName_eq]; rfl
    rw [hcontra] at hh
    rcases List.mem_append.mp hb with hb2 | hb2
    · simp [GALLERY_TOOL_NAMES] at hb2
      rcases hb2 with rfl | rfl <;> exact absurd hh (by decide)
    · simp [RAG_TOOL_NAMES] at hb2
      rcases hb2 with rfl | rfl | rfl <;> exact absurd hh (by decide)

/-- C7 witness: two distinct server ids give distinct exposed names, and the
rewritten name differs from a built-in name. -/
theorem C7_witness :
    prefixedToolName ⟨1⟩ ("alpha".toList) ≠ prefixedToolName ⟨2⟩ ("alpha".toList) ∧
    prefixedToolName ⟨1⟩ ("alpha".toList) ≠ "list_galleries".toList := by
  constructor
  · intro h
    have h12 := ((C7_prefixed_name_injective ⟨1⟩ ⟨2⟩ ("alpha".toList) ("alpha".toList)
      (by norm_num) (by norm_num) (by decide) (by decide)).1).mp h
    exact absurd h12.1 (by decide)
  · exact (C7_prefixed_name_injective ⟨1⟩ ⟨1⟩ ("alpha".toList) ("alpha".toList)
      (by norm_num) (by norm_num) (by decide) (by decide)).2.1 _ (by decide)

/-- C6: `_call_tool` decision order — gallery fixed names go to the gallery
provider and never consult the dynamic registry; a `"mcp_<id>__x"` name whose
id is no registered server of the tenant yields the textual not-found string;
any other unroutable name yields the textual unknown-tool string; and for
every name outside the built-in sets, dispatch returns a string rather than
raising (`Except.ok`). -/
theorem C6_router_behavior (st : Settings) (net : Net) (db : DB) (tenant : UUIDv)
    (args : Args) :
    (∀ name ∈ GALLERY_TOOL_NAMES, ∀ db2 : DB,
      _call_tool st net db tenant name args = call_gallery_tool st net tenant name args ∧
      _call_tool st net db tenant name args = _call_tool st net db2 tenant name args) ∧
    (∀ (u : UUIDv) (rest : Str), u.val < 2 ^ 128 → get_mcp_server db tenant u = none →
      _call_tool st net db tenant (prefixedToolName u rest) args = .ok errServerNotFound) ∧
    (∀ name : Str, name ∉ GALLERY_TOOL_NAMES → name ∉ RAG_TOOL_NAMES →
      (split_dunder name = none ∨ ("mcp_".toList).isPrefixOf name = false) →
      _call_tool st net db tenant name args = .ok (unknownToolMsg name)) ∧
    (∀ name : Str, name ∉ GALLERY_TOOL_NAMES → name ∉ RAG_TOOL_NAMES →
      ∃ s : Str, _call_tool st net db tenant name args = .ok s) := by
  refine ⟨?_, ?_, ?_, ?_⟩
  · intro name hmem db2
    constructor <;> simp [_call_tool, hmem]
  · intro u rest hu hnone
    rw [call_tool_dynamic st net db tenant u hu rest args, hnone]
  · intro name hg hr hd
    rcases hd with hd | hd
    · simp [_call_tool, hg, hr, hd]
    · cases hsplit : split_dunder name with
      | none => simp [_call_tool, hg, hr, hsplit]
      | some pr =>
        have hnp : ¬ (("mcp_".toList) <+: name) := by
          intro hc
          have h2 := List.isPrefixOf_iff_prefix.mpr hc
          rw [hd] at h2
          exact absurd h2 (by simp)
        have hnp2 : ¬ ((['m', 'c', 'p', '_'] : Str) <+: name) := hnp
        simp [_call_tool, hg, hr, hsplit, hd, hnp2]
  · intro name hg hr
    cases hsplit : split_dunder name with
    | none => exact ⟨unknownToolMsg name, by simp [_call_tool, hg, hr, hsplit]⟩
    | some pr =>
      obtain ⟨pre, inner⟩ := pr
      by_cases hpre : (("mcp_".toList).isPrefixOf name) = true
      · have hpp : ((['m', 'c', 'p', '_'] : Str) <+: name) := List.isPrefixOf_iff_prefix.mp hpre
        cases hparse : pyParseUUID (replace_mcp pre) with
        | none =>
          exact ⟨errInvalidServerId, by simp [_call_tool, hg, hr, hsplit, hpre, hpp, hparse]⟩
        | some su =>
          cases hlook : get_mcp_server db tenant su with
          | none =>
            exact ⟨errServerNotFound,
              by simp [_call_tool, hg, hr, hsplit, hpre, hpp, hparse, hlook]⟩
          | some srv =>
            cases hcall : call_mcp_tool_by_url net srv.base_url inner args with
            | ok s =>
              exact ⟨s, by simp [_call_tool, hg, hr, hsplit, hpre, hpp, hparse, hlook, hcall]⟩
            | error e =>
              exact ⟨errToolCallPre ++ e,
                by simp [_call_tool, hg, hr, hsplit, hpre, hpp, hparse, hlook, hcall]⟩
      · have hpre2 : (("mcp_".toList).isPrefixOf name) = false := by
          cases hx : ("mcp_".toList).isPrefixOf name
          · rfl
          · exact absurd hx hpre
        have hnp : ¬ (("mcp_".toList) <+: name) := by
          intro hc
          have h2 := List.isPrefixOf_iff_prefix.mpr hc
          rw [hpre2] at h2
          exact absurd h2 (by simp)
        have hnp2 : ¬ ((['m', 'c', 'p', '_'] : Str) <+: name) := hnp
        exact ⟨unknownToolMsg name, by simp [_call_tool, hg, hr, hsplit, hpre2, hnp2]⟩

/-- C6 witness: concrete routing outcomes for a gallery name, an unregistered
dynamic id, an unroutable plain name, and a malformed dynamic name. -/
theorem C6_witness :
    (_call_tool stW netFail [] ⟨0⟩ ("list_galleries".toList) []
      = call_gallery_tool stW netFail ⟨0⟩ ("list_galleries".toList) []) ∧
    (_call_tool stW netFail [] ⟨0⟩ (prefixedToolName ⟨5⟩ ("x".toList)) []
      = .ok errServerNotFound) ∧
    (_call_tool stW netFail [] ⟨0⟩ ("bogus".toList) []
      = .ok (unknownToolMsg ("bogus".toList))) ∧
    (∃ s, _call_tool stW netFail [] ⟨0⟩ ("mcp_zz__x".toList) [] = .ok s) := by
  refine ⟨((C6_router_behavior stW netFail [] ⟨0⟩ []).1 _ (by decide) []).1, ?_, ?_, ?_⟩
  · exact (C6_router_behavior stW netFail [] ⟨0⟩ []).2.1 ⟨5⟩ ("x".toList) (by norm_num) rfl
  · exact (C6_router_behavior stW netFail [] ⟨0⟩ []).2.2.1 _ (by decide) (by decide)
      (Or.inl (by decide))
  · exact (C6_router_behavior stW netFail [] ⟨0⟩ []).2.2.2 _ (by decide) (by decide)

theorem deepseek_props_no_tenant (t : RawTool) :
    ∀ kv ∈ ((_mcp_tool_to_deepseek t true).function.parameters.properties.getD []),
      kv.1 ≠ tenantKey := by
  intro kv hkv hk
  by_cases hc : schemaHasTenant (t.inputSchema.getD ⟨none, none, none⟩) = true
  · have hout : (_mcp_tool_to_deepseek t true).function.parameters.properties
        = some (((t.inputSchema.getD ⟨none, none, none⟩).properties.getD []).filter
            (fun kv => kv.1 ≠ tenantKey)) := by
      simp [_mcp_tool_to_deepseek, hc]
    rw [hout] at hkv
    simp only [Option.getD_some] at hkv
    have hf := List.of_mem_filter hkv
    simp [hk] at hf
  · have hout : (_mcp_tool_to_deepseek t true).function.parameters.properties
        = (t.inputSchema.getD ⟨none, none, none⟩).properties := by
      simp [_mcp_tool_to_deepseek, hc]
    rw [hout] at hkv
    apply hc
    rcases hprop : (t.inputSchema.getD ⟨none, none, none⟩).properties with _ | props
    · rw [hprop] at hkv; simp at hkv
    · rw [hprop] at hkv
      simp only [Option.getD_some] at hkv
      simp only [schemaHasTenant, hprop, Option.isSome_some, Bool.true_and, Option.getD_some]
      exact List.any_eq_true.mpr ⟨kv, hkv, by simp [hk]⟩

theorem deepseek_required_no_tenant (t : RawTool)
    (hwf : tenantKey ∈ ((t.inputSchema.getD ⟨none, none, none⟩).required.getD []) →
      schemaHasTenant (t.inputSchema.getD ⟨none, none, none⟩) = true) :
    tenantKey ∉ ((_mcp_tool_to_deepseek t true).function.parameters.required.getD []) := by
  intro hmem
  by_cases hc : schemaHasTenant (t.inputSchema.getD ⟨none, none, none⟩) = true
  · have hout : (_mcp_tool_to_deepseek t true).function.parameters.required
        = (if (((t.inputSchema.getD ⟨none, none, none⟩).required.getD []).filter
              (fun x => x ≠ tenantKey)).isEmpty
           then none
           else some (((t.inputSchema.getD ⟨none, none, none⟩).required.getD []).filter
              (fun x => x ≠ tenantKey))) := by
      simp [_mcp_tool_to_deepseek, hc]
    rw [hout] at hmem
    split at hmem
    · simp at hmem
    · simp only [Option.getD_some] at hmem
      have hf := List.of_mem_filter hmem
      simp at hf
  · have hout : (_mcp_tool_to_deepseek t true).function.parameters.required
        = (t.inputSchema.getD ⟨none, none, none⟩).required := by
      simp [_mcp_tool_to_deepseek, hc]
    rw [hout] at hmem
    exact hc (hwf hmem)

/-- C8: built-in tool schemas handed to the model carry no `tenant_id`
parameter (removed from `properties` unconditionally and from `required`
whenever `required` is consistent with `properties`), while invocation injects
the tenant id: always for gallery tools, exactly for the two tenant-scoped
retrieval tools and not for `get_document`, and never for dynamic tools,
whose name-stripped call is forwarded verbatim. -/
theorem C8_tenant_injection (st : Settings) (net : Net) (db : DB) (tenant : UUIDv)
    (args : Args) :
    (∀ (t : RawTool) (kv : Str × Str),
      kv ∈ ((_mcp_tool_to_deepseek t true).function.parameters.properties.getD []) →
      kv.1 ≠ tenantKey) ∧
    (∀ t : RawTool,
      (tenantKey ∈ ((t.inputSchema.getD ⟨none, none, none⟩).required.getD []) →
        schemaHasTenant (t.inputSchema.getD ⟨none, none, none⟩) = true) →
      tenantKey ∉ ((_mcp_tool_to_deepseek t true).function.parameters.required.getD [])) ∧
    lookupKey (call_gallery_tool_args tenant args) tenantKey = some (uuidStr tenant) ∧
    (lookupKey (call_rag_tool_args tenant ("list_documents".toList) args) tenantKey
        = some (uuidStr tenant) ∧
      lookupKey (call_rag_tool_args tenant ("search_documents".toList) args) tenantKey
        = some (uuidStr tenant) ∧
      call_rag_tool_args tenant ("get_document".toList) args = args) ∧
    (∀ (u : UUIDv) (nm : Str) (srv : McpServer), u.val < 2 ^ 128 →
      get_mcp_server db tenant u = some srv →
      _call_tool st net db tenant (prefixedToolName u nm) args
        = (match call_mcp_tool_by_url net srv.base_url nm args with
           | .ok s => .ok s
           | .error e => .ok (errToolCallPre ++ e))) := by
  refine ⟨fun t kv hkv => deepseek_props_no_tenant t kv hkv,
    fun t hwf => deepseek_required_no_tenant t hwf,
    lookupKey_setKey args tenantKey (uuidStr tenant), ⟨?_, ?_, ?_⟩, ?_⟩
  · rw [call_rag_tool_args, if_pos (Or.inl rfl)]
    exact lookupKey_setKey args tenantKey (uuidStr tenant)
  · rw [call_rag_tool_args, if_pos (Or.inr rfl)]
    exact lookupKey_setKey args tenantKey (uuidStr tenant)
  · rw [call_rag_tool_args, if_neg (by decide)]
  · intro u nm srv hu hsrv
    rw [call_tool_dynamic st net db tenant u hu nm args, hsrv]

/-- C8 witness: concrete tenant-injection facts — the gallery outbound
arguments carry the tenant id, `get_document` arguments pass through
untouched, a schema\'s `tenant_id` is dropped from `required`, and a dynamic
call is forwarded (here: its transport failure comes back as a text). -/
theorem C8_witness :
    lookupKey (call_gallery_tool_args ⟨3⟩ []) tenantKey = some (uuidStr ⟨3⟩) ∧
    call_rag_tool_args ⟨3⟩ ("get_document".toList) [("q".toList, "1".toList)]
      = [("q".toList, "1".toList)] ∧
    tenantKey ∉ ((_mcp_tool_to_deepseek rawTenant true).function.parameters.required.getD []) ∧
    _call_tool stW netFail [srvW] ⟨0⟩ (prefixedToolName ⟨7⟩ ("x".toList)) []
      = .ok (errToolCallPre ++ "connection refused".toList) := by
  refine ⟨(C8_tenant_injection stW netFail [srvW] ⟨3⟩ []).2.2.1, ?_, ?_, ?_⟩
  · exact (C8_tenant_injection stW netFail [srvW] ⟨3⟩
      [("q".toList, "1".toList)]).2.2.2.1.2.2
  · exact (C8_tenant_injection stW netFail [srvW] ⟨0⟩ []).2.1 rawTenant (fun _ => by decide)
  · have h := (C8_tenant_injection stW netFail [srvW] ⟨0⟩ []).2.2.2.2 ⟨7⟩ ("x".toList) srvW
      (by norm_num) rfl
    rw [h]
    rfl

/-- C2 (amended): building the tool catalog never raises (it always returns
`Except.ok`), the descriptors fetched from the built-in gallery and RAG
endpoints are always contained in it, and when every enabled dynamic server's
discovery fails the catalog is exactly the built-in part — but a failing
built-in endpoint contributes no descriptors. -/
theorem C2_catalog (st : Settings) (net : Net) (db : DB) (tenant : UUIDv) :
    (∃ l, _get_all_tools_for_llm st net db tenant = .ok l) ∧
    (∀ l, _get_all_tools_for_llm st net db tenant = .ok l →
      (∀ d ∈ get_gallery_tools_for_llm st net, d ∈ l) ∧
      (∀ d ∈ get_rag_tools_for_llm st net, d ∈ l)) ∧
    ((∀ s ∈ list_mcp_servers db tenant, s.enabled = true →
        ∃ e, fetch_tools_from_url net s.base_url = .error e) →
      _get_all_tools_for_llm st net db tenant
        = .ok (get_gallery_tools_for_llm st net ++ get_rag_tools_for_llm st net)) := by
  refine ⟨⟨_, rfl⟩, ?_, ?_⟩
  · intro l hl
    have hl2 := Except.ok.inj hl
    constructor
    · intro d hd
      rw [← hl2]
      simp [hd]
    · intro d hd
      rw [← hl2]
      simp [hd]
  · intro hfail
    have hfold : ∀ (ls : List McpServer) (acc : List ToolForLLM),
        (∀ s ∈ ls, s.enabled = true → ∃ e, fetch_tools_from_url net s.base_url = .error e) →
        ls.foldl (fun out s =>
          if s.enabled then
            match fetch_tools_from_url net s.base_url with
            | .ok raw => out ++ dyn_tools_of s raw
            | .error _ => out
          else out) acc = acc := by
      intro ls
      induction ls with
      | nil => intro acc _; rfl
      | cons s ls ih =>
        intro acc hall
        simp only [List.foldl_cons]
        cases hen : s.enabled with
        | false =>
          rw [if_neg (by simp [hen])]
          exact ih acc (fun x hx => hall x (by simp [hx]))
        | true =>
          obtain ⟨e, he⟩ := hall s (by simp) hen
          rw [if_pos (by simp [hen]), he]
          exact ih acc (fun x hx => hall x (by simp [hx]))
    rw [_get_all_tools_for_llm, hfold (list_mcp_servers db tenant) [] hfail,
      List.append_nil]

/-- C2 counterexample: with every endpoint unreachable the catalog is the
empty list, hence it contains no descriptor at all — in particular not the
built-in gallery/retrieval descriptors the claim promises unconditionally
(those are themselves fetched from the gallery/RAG services at request
time). -/
theorem C2_counterexample :
    _get_all_tools_for_llm stW netFail [] ⟨0⟩ = .ok [] ∧
    GALLERY_TOOL_NAMES ≠ [] ∧ RAG_TOOL_NAMES ≠ [] :=
  ⟨rfl, by decide, by decide⟩

/-- C2 witness: with one registered (unreachable) dynamic server the catalog
is exactly the built-in part. -/
theorem C2_witness :
    _get_all_tools_for_llm stW netFail [srvW] ⟨0⟩
      = .ok (get_gallery_tools_for_llm stW netFail ++ get_rag_tools_for_llm stW netFail) :=
  (C2_catalog stW netFail [srvW] ⟨0⟩).2.2 (fun s hs _ => by
    have hss : s = srvW := by simpa [list_mcp_servers, srvW] using hs
    subst hss
    exact ⟨"connection refused".toList, rfl⟩)

/-- C5 (amended): with an empty tool catalog, `run_user_chat_with_mcp_tools`
issues exactly one plain completion call (no tools parameter) and returns its
text verbatim — without applying the gallery-path rewriting. -/
theorem C5_empty_catalog_fast_path (st : Settings) (env : ChatEnv) (net : Net) (db : DB)
    (tenant : UUIDv) (sp : Str) (msgs : List Msg) (ft : Bool)
    (h : _get_all_tools_for_llm st net db tenant = .ok []) :
    run_user_chat_with_mcp_tools st env net db tenant sp msgs ft
      = .ok ⟨env.llmPlain (promptWithContext sp ft) (takeLast CONTEXT_MESSAGE_LIMIT msgs),
            [takeLast CONTEXT_MESSAGE_LIMIT msgs], []⟩ := by
  simp [run_user_chat_with_mcp_tools, h]

/-- C5 witness: the fast path at a concrete backend — one plain request,
no tool rounds, the plain completion text returned as is. -/
theorem C5_witness :
    run_user_chat_with_mcp_tools stW envPlainPath netFail [] ⟨0⟩ [] [] false
      = .ok ⟨pathCE, [[]], []⟩ := by
  have h := C5_empty_catalog_fast_path stW envPlainPath netFail [] ⟨0⟩ [] [] false rfl
  rw [h]
  rfl

/-- C5 counterexample: on the empty-catalog fast path the returned text is the
backend's text with NO gallery-path rewriting applied, although the claim
says the result is the text "modulo the gallery-path rewriting" — at this
input the rewriting would change the text. -/
theorem C5_counterexample :
    runTextOf (run_user_chat_with_mcp_tools stCE envPlainPath netFail [] ⟨0⟩ [] [] false)
      = pathCE ∧
    _inject_base_url_to_image_paths stCE pathCE ⟨0⟩ ≠ pathCE := by
  refine ⟨rfl, ?_⟩
  decide

/-- C4 (amended): the working message list is truncated to the last
`CONTEXT_MESSAGE_LIMIT` messages once, before the first completion request of
a chat turn; each later request of the same turn is the previous request plus
the messages appended in between, with no re-truncation. -/
theorem C4_truncation_once_per_turn (st : Settings) (env : ChatEnv) (net : Net) (db : DB)
    (tenant : UUIDv) (sp : Str) (msgs : List Msg) (ft : Bool) (res : RunResult)
    (hres : run_user_chat_with_mcp_tools st env net db tenant sp msgs ft = .ok res) :
    (∀ r, res.rounds.head? = some r →
      r.requestMessages = takeLast CONTEXT_MESSAGE_LIMIT msgs) ∧
    List.Chain' (fun a b => b.requestMessages = a.requestMessages ++ a.appended) res.rounds ∧
    (∀ pm ∈ res.plainRequests, pm = takeLast CONTEXT_MESSAGE_LIMIT msgs) := by
  obtain ⟨L, hL⟩ : ∃ L, _get_all_tools_for_llm st net db tenant = .ok L := ⟨_, rfl⟩
  unfold run_user_chat_with_mcp_tools at hres
  simp only [hL] at hres
  split at hres
  · rw [← Except.ok.inj hres]
    refine ⟨fun r hr => ?_, by simp, fun pm hpm => ?_⟩
    · simp at hr
    · simpa using hpm
  · rw [← Except.ok.inj hres]
    refine ⟨?_, ?_, fun pm hpm => by simp at hpm⟩
    · exact (chatLoop_chain st env net db tenant (promptWithContext sp ft) L
        MAX_TOOL_ROUNDS (takeLast CONTEXT_MESSAGE_LIMIT msgs) []).1
    · exact (chatLoop_chain st env net db tenant (promptWithContext sp ft) L
        MAX_TOOL_ROUNDS (takeLast CONTEXT_MESSAGE_LIMIT msgs) []).2

/-- C4 counterexample: a two-round turn whose second completion request has 12
messages, exceeding `CONTEXT_MESSAGE_LIMIT` (10): truncation is not
re-applied before every request. -/
theorem C4_counterexample :
    runRoundLens (run_user_chat_with_mcp_tools stW env4 netW [] ⟨0⟩ [] msgs10 false)
      = [10, 12] ∧ ¬ (12 ≤ CONTEXT_MESSAGE_LIMIT) := by
  refine ⟨by decide, by decide⟩

/-- C4 witness: the chained-request invariant at a concrete run. -/
theorem C4_witness :
    List.Chain' (fun a b => b.requestMessages = a.requestMessages ++ a.appended)
      (resOfRun (run_user_chat_with_mcp_tools stW env4 netW [] ⟨0⟩ [] msgs10 false)).rounds :=
  (C4_truncation_once_per_turn stW env4 netW [] ⟨0⟩ [] msgs10 false _ rfl).2.1

/-- C9 (amended): only on the termination path where the final round returns
no tool calls is the final text the gallery-path rewriting of the completion
text; on the round-cap path the last text (or the fallback) is returned
unrewritten, and the fast path returns the plain text unrewritten; moreover
the rewriting leaves any text without the gallery path prefix unchanged. -/
theorem C9_path_rewrite_on_termination (st : Settings) (env : ChatEnv) (net : Net) (db : DB)
    (tenant : UUIDv) (sp : Str) (msgs : List Msg) (ft : Bool) (res : RunResult)
    (hres : run_user_chat_with_mcp_tools st env net db tenant sp msgs ft = .ok res) :
    (∀ r, res.rounds.getLast? = some r →
      ((r.out.tool_calls = none ∨ r.out.tool_calls = some []) →
        res.text = _inject_base_url_to_image_paths st r.out.content tenant) ∧
      (∀ tc tcs, r.out.tool_calls = some (tc :: tcs) →
        res.text = (if r.out.content = [] then fallbackText else r.out.content))) ∧
    (∀ t : Str, containsSub lit_tenants t = false →
      _inject_base_url_to_image_paths st t tenant = t) := by
  obtain ⟨L, hL⟩ : ∃ L, _get_all_tools_for_llm st net db tenant = .ok L := ⟨_, rfl⟩
  constructor
  · intro r hr
    unfold run_user_chat_with_mcp_tools at hres
    simp only [hL] at hres
    split at hres
    · rw [← Except.ok.inj hres] at hr
      simp at hr
    · obtain ⟨r0, hlast0, h1, h2⟩ := chatLoop_final_text st env net db tenant
        (promptWithContext sp ft) L MAX_TOOL_ROUNDS
        (takeLast CONTEXT_MESSAGE_LIMIT msgs) [] (by decide)
      rw [← Except.ok.inj hres] at hr ⊢
      simp only at hr
      rw [hlast0] at hr
      have hrr := Option.some_inj.mp hr
      rw [← hrr]
      exact ⟨h1, h2⟩
  · intro t ht
    by_cases hb : rstripSlash st.frontend_base_url = []
    · simp [_inject_base_url_to_image_paths, hb]
    · simp only [_inject_base_url_to_image_paths, hb, if_false]
      exact injectScan_no_match _ _ _ _ ht

/-- C9 counterexample: on the round-cap termination path the final text is
returned without the gallery-path rewriting, although the claim requires the
rewriting on every termination path — at this input the rewriting would
change the text. -/
theorem C9_counterexample :
    runTextOf (run_user_chat_with_mcp_tools stCE envCap netW [] ⟨0⟩ [] [] false) = pathCE ∧
    _inject_base_url_to_image_paths stCE pathCE ⟨0⟩ ≠ pathCE := by
  refine ⟨rfl, ?_⟩
  decide

/-- C9 witness: on the no-tool-calls termination path the final text is the
rewriting of the completion text. -/
theorem C9_witness :
    (resOfRun (run_user_chat_with_mcp_tools stCE envOnce netW [] ⟨0⟩ [] [] false)).text
      = _inject_base_url_to_image_paths stCE pathCE ⟨0⟩ := by
  have h := (C9_path_rewrite_on_termination stCE envOnce netW [] ⟨0⟩ [] [] false _ rfl).1
    ⟨[], ⟨pathCE, none⟩, []⟩ rfl
  exact h.1 (Or.inl rfl)

/-- C3: in every round in which the completion backend returns tool calls,
the tool-result messages appended in that round carry exactly the requested
call ids, in order — so the multiset (indeed list) of `tool_call_id`s matches
the assistant's `tool_calls` ids for that round. -/
theorem C3_tool_result_ids (st : Settings) (env : ChatEnv) (net : Net) (db : DB)
    (tenant : UUIDv) (sp : Str) (msgs : List Msg) (ft : Bool) (res : RunResult)
    (hres : run_user_chat_with_mcp_tools st env net db tenant sp msgs ft = .ok res)
    (r : RoundRec) (hr : r ∈ res.rounds)
    (tcs : List ToolCallIn) (htcs : r.out.tool_calls = some tcs) :
    (r.appended.filter (fun m => m.role = "tool".toList)).map (fun m => m.tool_call_id)
      = tcs.map (fun tc => some tc.id) := by
  obtain ⟨L, hL⟩ : ∃ L, _get_all_tools_for_llm st net db tenant = .ok L := ⟨_, rfl⟩
  unfold run_user_chat_with_mcp_tools at hres
  simp only [hL] at hres
  split at hres
  · rw [← Except.ok.inj hres] at hr
    simp at hr
  · rw [← Except.ok.inj hres] at hr
    simp only at hr
    have hspec := chatLoop_round_spec st env net db tenant (promptWithContext sp ft) L
      MAX_TOOL_ROUNDS (takeLast CONTEXT_MESSAGE_LIMIT msgs) [] r hr
    cases tcs with
    | nil =>
      rw [hspec.2.1 (Or.inr htcs)]
      rfl
    | cons tc tl =>
      rw [hspec.2.2 tc tl htcs]
      rw [List.filter_cons_of_neg (by simp [assistantMsgOf])]
      exact execToolCall_msgs st net db tenant (tc :: tl)

/-- C3 witness: the first round of a concrete run appends exactly one
tool-result message, correlated to the requested call id. -/
theorem C3_witness :
    (rW.appended.filter (fun m => m.role = "tool".toList)).map (fun m => m.tool_call_id)
      = [some ("call1".toList)] := by
  have h := C3_tool_result_ids stW envAlways netW [] ⟨0⟩ [] [] false _ rfl rW
    (by decide) [tcW] (by decide)
  rw [h]
  rfl

/-- C1: for every behaviour of the completion backend the orchestration
performs at most `MAX_TOOL_ROUNDS` tool-rounds (plus at most one plain call)
and returns a string; with a backend that returns tool calls on every round
and a nonempty catalog, exactly `MAX_TOOL_ROUNDS` rounds happen and the
result is the last seen completion text, or the fixed fallback string if that
text is empty. -/
theorem C1_round_cap (st : Settings) (env : ChatEnv) (net : Net) (db : DB)
    (tenant : UUIDv) (sp : Str) (msgs : List Msg) (ft : Bool) :
    (∃ res, run_user_chat_with_mcp_tools st env net db tenant sp msgs ft = .ok res) ∧
    (∀ res, run_user_chat_with_mcp_tools st env net db tenant sp msgs ft = .ok res →
      res.rounds.length ≤ MAX_TOOL_ROUNDS ∧ res.plainRequests.length ≤ 1 ∧
      ((∀ p m tl, ∃ tc tcs, (env.llmTools p m tl).tool_calls = some (tc :: tcs)) →
       (∀ l, _get_all_tools_for_llm st net db tenant = .ok l → l ≠ []) →
        res.rounds.length = MAX_TOOL_ROUNDS ∧
        ∃ r, res.rounds.getLast? = some r ∧
          res.text = (if r.out.content = [] then fallbackText else r.out.content))) := by
  obtain ⟨L, hL⟩ : ∃ L, _get_all_tools_for_llm st net db tenant = .ok L := ⟨_, rfl⟩
  constructor
  · unfold run_user_chat_with_mcp_tools
    simp only [hL]
    by_cases hLe : L = [] <;> simp [hLe]
  · intro res hres
    unfold run_user_chat_with_mcp_tools at hres
    simp only [hL] at hres
    split at hres
    · rename_i hLe
      rw [← Except.ok.inj hres]
      refine ⟨by simp [MAX_TOOL_ROUNDS], by simp, fun _ hne => ?_⟩
      exact absurd hLe (hne L hL)
    · rw [← Except.ok.inj hres]
      refine ⟨chatLoop_rounds_le st env net db tenant (promptWithContext sp ft) L
          MAX_TOOL_ROUNDS (takeLast CONTEXT_MESSAGE_LIMIT msgs) [], by simp, ?_⟩
      intro hllm _
      obtain ⟨hlen, r, hlast, htext⟩ := chatLoop_always_tools st env net db tenant
        (promptWithContext sp ft) L hllm MAX_TOOL_ROUNDS
        (takeLast CONTEXT_MESSAGE_LIMIT msgs) [] (by decide)
      exact ⟨hlen, r, hlast, htext⟩

/-- C1 witness: a backend that always requests a tool still yields a normal
result after exactly `MAX_TOOL_ROUNDS` rounds. -/
theorem C1_witness :
    ∃ res, run_user_chat_with_mcp_tools stW envAlways netW [] ⟨0⟩ [] [] false = .ok res ∧
      res.rounds.length = MAX_TOOL_ROUNDS := by
  obtain ⟨res, hres⟩ := (C1_round_cap stW envAlways netW [] ⟨0⟩ [] [] false).1
  have h3 := ((C1_round_cap stW envAlways netW [] ⟨0⟩ [] [] false).2 res hres).2.2
    (fun p m tl => ⟨tcW, [], rfl⟩)
    (fun l hl => by
      rw [show _get_all_tools_for_llm stW netW [] ⟨0⟩ = Except.ok [cW, cW] from rfl] at hl
      injection hl with h
      rw [← h]
      simp)
  exact ⟨res, hres, h3.1⟩
